import Mathlib

/-!
Shallow embedding of the volume-jinn progression optimizer
(`src/hevy.py`: `Hevy.calculate_exercise_volume`, `Hevy.optimize_weight_and_reps`,
`Hevy.get_optimized_options`, and `src/app.py`: `calc_volume`).

Python floats are modelled as exact rationals (ℚ), Python ints as ℤ.
A set is a pair (reps, weight_kg).  Raw API sets may carry `None` entries,
modelled as `Option`; a possibly *missing* dict key is one more `Option`
layer.  The numeric tolerance `1e-6` from the source is `eps` below.
-/

namespace VolumeJinn

/-- A set after null-filtering: (reps, weight_kg). -/
abbrev SetRW := ℤ × ℚ

/-- The numeric tolerance 1e-6 used throughout `hevy.py`. -/
def eps : ℚ := 1 / 1000000

/-- Total volume of a set list: Σ reps × weight. -/
def volume (sets : List SetRW) : ℚ := (sets.map (fun s => (s.1 : ℚ) * s.2)).sum

/-! ### Raw sets with possibly missing / null fields (for the volume calculators) -/

/-- A raw set dict.  The outer `Option` is key presence, the inner one is `None`-ness. -/
structure RawSet where
  weight_kg : Option (Option ℚ)
  reps : Option (Option ℤ)
deriving DecidableEq

/-- Python truthiness of a possibly-null float: `None` and `0` are falsy. -/
def truthyQ : Option ℚ → Bool
  | none => false
  | some x => decide (x ≠ 0)

/-- Python truthiness of a possibly-null int. -/
def truthyZ : Option ℤ → Bool
  | none => false
  | some x => decide (x ≠ 0)

/-- `Hevy.calculate_exercise_volume` (src/hevy.py:100-105).
`total_volume += s['weight_kg'] * s['reps'] if s['weight_kg'] and s['reps'] else 0`.
Accessing a missing key raises `KeyError` (modelled as `Except.error`); the
`and` short-circuits, so a falsy `weight_kg` never touches `reps`. -/
def calculate_exercise_volume (exercise_data : List RawSet) : Except String ℚ :=
  exercise_data.foldlM
    (fun acc s =>
      match s.weight_kg with
      | none => .error "KeyError: weight_kg"
      | some w =>
        if truthyQ w then
          match s.reps with
          | none => .error "KeyError: reps"
          | some r =>
            .ok (acc + if truthyZ r then w.getD 0 * ((r.getD 0 : ℤ) : ℚ) else 0)
        else .ok (acc + 0))
    0

/-- `calc_volume` (src/app.py:117-118):
`sum((s.get("weight_kg", 0) or 0) * (s.get("reps", 0) or 0) for s in sets)`. -/
def calc_volume (sets : List RawSet) : ℚ :=
  (sets.map (fun s =>
    ((s.weight_kg.getD (some 0)).getD 0) * ((((s.reps.getD (some 0)).getD 0 : ℤ)) : ℚ))).sum

/-- Spec-side volume (§4.1): sum of reps×weight where a missing or null reps
or weight contributes zero for that set.  Written from the spec's words, to be
compared with the two source functions above. -/
def specVolume (sets : List RawSet) : ℚ :=
  (sets.map (fun s =>
    (((s.reps.getD (some 0)).getD 0 : ℤ) : ℚ) * ((s.weight_kg.getD (some 0)).getD 0))).sum

/-! ### Phase 1: `optimize_weight_and_reps` (src/hevy.py:136-217) -/

/-- The hard-coded special-cased exercise name (src/hevy.py:152). -/
def legPressName : String := "Leg Press Horizontal (Machine)"

/-- Candidate uniform weight bumps (src/hevy.py:151-156):
`[9.0]` for the special exercise, otherwise all multiples of 1.25 up to
`floor(avg_w*max_pct_wb/1.25)*1.25`. -/
def weightCandidates (avg_w max_pct_wb : ℚ) (exercise_name : String) : List ℚ :=
  if exercise_name = legPressName then [9]
  else (List.range (⌊avg_w * max_pct_wb / (5/4)⌋).toNat).map
    (fun i : ℕ => (5/4 : ℚ) * ((i : ℚ) + 1))

/-- `bumped = [(r, w + w_inc) for r,w in base_sets]` (src/hevy.py:161). -/
def bumpedSets (base : List SetRW) (w_inc : ℚ) : List SetRW :=
  base.map (fun s => (s.1, s.2 + w_inc))

/-- `added_wvol = sum(r * w_inc for r,_ in base_sets)` (src/hevy.py:162). -/
def addedWeightVol (base : List SetRW) (w_inc : ℚ) : ℚ :=
  (base.map (fun s => (s.1 : ℚ) * w_inc)).sum

/-- Rep-floor raise for one set (src/hevy.py:178-183): `min(rep_floor - r, cap_extra)`
when `r < rep_floor`, else nothing. -/
def floorNeed (rep_floor : ℤ) (r cap_extra : ℤ) : ℤ :=
  if r < rep_floor then min (rep_floor - r) cap_extra else 0

/-- Mutable state of the one-rep-at-a-time greedy loop (src/hevy.py:187-198). -/
structure GreedyState where
  bump_r : List ℤ
  cap_extra : List ℤ
  added_rvol : ℚ
  rem2 : ℚ
deriving DecidableEq

/-- One iteration body: give one rep to set `i` (src/hevy.py:192-195). -/
def greedyStep (wb : List ℚ) (s : GreedyState) (i : ℕ) : GreedyState :=
  { bump_r := s.bump_r.set i (s.bump_r.getD i 0 + 1)
    cap_extra := s.cap_extra.set i (s.cap_extra.getD i 0 - 1)
    added_rvol := s.added_rvol + wb.getD i 0
    rem2 := s.rem2 - wb.getD i 0 }

/-- First index in `order` that still has headroom (src/hevy.py:190-191). -/
def findHeadroom (order : List ℕ) (cap_extra : List ℤ) : Option ℕ :=
  order.find? (fun i => decide (0 < cap_extra.getD i 0))

/-- The `while rem2 > 0` loop, with explicit fuel.  Each iteration gives one
rep to the first set in `order` with headroom; the loop exits when the deficit
is met or no set has headroom (Python's `for`-`else` `break`). -/
def greedyLoop (wb : List ℚ) (order : List ℕ) : ℕ → GreedyState → GreedyState
  | 0, s => s
  | Nat.succ fuel, s =>
    if 0 < s.rem2 then
      match findHeadroom order s.cap_extra with
      | some i => greedyLoop wb order fuel (greedyStep wb s i)
      | none => s
    else s

/-- Total positive headroom, an upper bound on the number of loop iterations. -/
def capSum (cap_extra : List ℤ) : ℕ := (cap_extra.map Int.toNat).sum

/-- The greedy loop run to completion: `capSum` fuel always suffices. -/
def runGreedy (wb : List ℚ) (order : List ℕ) (s : GreedyState) : GreedyState :=
  greedyLoop wb order (capSum s.cap_extra) s

/-- Stable insertion keeping indices in descending `wb` order, ties first-come
(Python's stable `sorted(..., reverse=True)`, src/hevy.py:188). -/
def insertByW (wb : List ℚ) (i : ℕ) : List ℕ → List ℕ
  | [] => [i]
  | j :: rest => if wb.getD j 0 < wb.getD i 0 then i :: j :: rest else j :: insertByW wb i rest

/-- `order = sorted(range(n), key=lambda i: bumped[i][1], reverse=True)`. -/
def orderOf (wb : List ℚ) : List ℕ :=
  (List.range wb.length).foldl (fun acc i => insertByW wb i acc) []

/-- A Phase-1 candidate record (the dicts built in src/hevy.py:164-171/205-211). -/
structure Cand where
  w_inc : ℚ
  bump_reps : List ℤ
  total_added : ℚ
  overshoot : ℚ
  final_sets : List SetRW
deriving DecidableEq

/-- The early-return candidate (src/hevy.py:164-171): the uniform bump alone
meets the deficit, zero added reps. -/
def earlyCand (base : List SetRW) (delta w_inc : ℚ) : Cand :=
  { w_inc := w_inc
    bump_reps := List.replicate base.length 0
    total_added := addedWeightVol base w_inc
    overshoot := addedWeightVol base w_inc - delta
    final_sets := bumpedSets base w_inc }

/-- The greedy-rep candidate for one weight increment (src/hevy.py:173-211):
rep-floor raise, then one-rep-at-a-time on the heaviest sets with headroom. -/
def evalCandidate (base : List SetRW) (delta : ℚ) (rep_floor rep_cap : ℤ) (w_inc : ℚ) : Cand :=
  let added_wvol := addedWeightVol base w_inc
  let rem1 := delta - added_wvol
  let bump_r0 := base.map (fun s => floorNeed rep_floor s.1 (rep_cap - s.1))
  let cap_extra1 := base.map (fun s => (rep_cap - s.1) - floorNeed rep_floor s.1 (rep_cap - s.1))
  let repfloor_added :=
    (base.map (fun s => ((floorNeed rep_floor s.1 (rep_cap - s.1) : ℤ) : ℚ) * (s.2 + w_inc))).sum
  let wb := (bumpedSets base w_inc).map (fun s => s.2)
  let g := runGreedy wb (orderOf wb) ⟨bump_r0, cap_extra1, repfloor_added, rem1 - repfloor_added⟩
  { w_inc := w_inc
    bump_reps := g.bump_r
    total_added := added_wvol + g.added_rvol
    overshoot := added_wvol + g.added_rvol - delta
    final_sets := (base.zip g.bump_r).map (fun p => (p.1.1 + p.2, p.1.2 + w_inc)) }

/-- `any(bump_r) and overshoot >= -1e-6` (src/hevy.py:203). -/
def acceptedB (c : Cand) : Bool :=
  (c.bump_reps.any (fun b => decide (b ≠ 0))) && decide (-eps ≤ c.overshoot)

/-- The best-replacement test (src/hevy.py:212-214). -/
def betterCand (c best : Cand) : Bool :=
  decide (c.overshoot < best.overshoot - eps) ||
    (decide (|c.overshoot - best.overshoot| < eps) && decide (c.w_inc < best.w_inc))

/-- The `for w_inc in candidates` loop (src/hevy.py:159-217).  Returns the
early candidate as soon as the uniform bump alone is sufficient; otherwise
keeps the best accepted greedy candidate. -/
def owrLoop (base : List SetRW) (delta : ℚ) (rep_floor rep_cap : ℤ) :
    List ℚ → Option Cand → Option Cand
  | [], best => best
  | w_inc :: rest, best =>
    if delta - addedWeightVol base w_inc ≤ 0 then some (earlyCand base delta w_inc)
    else
      let c := evalCandidate base delta rep_floor rep_cap w_inc
      let best1 :=
        if acceptedB c then
          match best with
          | none => some c
          | some b => if betterCand c b then some c else some b
        else best
      owrLoop base delta rep_floor rep_cap rest best1

/-- `Hevy.optimize_weight_and_reps` (src/hevy.py:136-217). -/
def optimize_weight_and_reps (base_sets : List SetRW) (delta avg_w max_pct_wb : ℚ)
    (rep_floor rep_cap : ℤ) (exercise_name : String) : Option Cand :=
  owrLoop base_sets delta rep_floor rep_cap
    (weightCandidates avg_w max_pct_wb exercise_name) none

/-! ### `get_optimized_options` (src/hevy.py:219-310) -/

/-- Diagnostic phase records (the dicts appended to `result['phases']`). -/
inductive Phase where
  | p0 (lost_volume : ℚ) (base_sets : List SetRW) (remaining : ℚ)
  | p1 (w_inc : ℚ) (bump_reps : List ℤ) (added_volume overshoot : ℚ)
      (final_sets : List SetRW) (remaining : ℚ)
  | p2 (full_new_sets : ℤ) (partial_new_set : Option SetRW) (added_volume : ℚ)
      (new_sets : List SetRW) (remaining : ℚ)
deriving DecidableEq

/-- The `remaining` field carried by every phase record. -/
def Phase.remaining : Phase → ℚ
  | .p0 _ _ rem => rem
  | .p1 _ _ _ _ _ rem => rem
  | .p2 _ _ _ _ rem => rem

def Phase.isP1 : Phase → Bool
  | .p1 _ _ _ _ _ _ => true
  | _ => false

def Phase.isP2 : Phase → Bool
  | .p2 _ _ _ _ _ => true
  | _ => false

/-- The optimizer's result record. -/
structure OptResult where
  delta : ℚ
  target_volume : ℚ
  phases : List Phase
  final_sets : List SetRW
deriving DecidableEq

/-- Python `round(x, 2)`: banker's rounding to two decimals. -/
def round2 (x : ℚ) : ℚ :=
  let f : ℤ := ⌊100 * x⌋
  ((if 100 * x - f < 1/2 then f
    else if 1/2 < 100 * x - f then f + 1
    else if f % 2 = 0 then f else f + 1 : ℤ) : ℚ) / 100

/-- The optimizer's input: `data['exercise']` and `data['sets']`
(raw tuples, possibly with `None` entries). -/
structure ExerciseInput where
  exercise : String
  sets : List (Option ℤ × Option ℚ)

/-- Null filtering (src/hevy.py:227):
`orig = [(r,w) for r,w in data['sets'] if r is not None and w is not None]`. -/
def origOf (data : ExerciseInput) : List SetRW :=
  data.sets.filterMap (fun s =>
    match s.1, s.2 with
    | some r, some w => some ((r, w) : SetRW)
    | _, _ => none)

/-- `target_vol = total_vol * (1 + volume_perc)` (src/hevy.py:238). -/
def targetVolOf (data : ExerciseInput) (volume_perc : ℚ) : ℚ :=
  volume (origOf data) * (1 + volume_perc)

/-- `delta = target_vol - total_vol` (src/hevy.py:239). -/
def deltaOf (data : ExerciseInput) (volume_perc : ℚ) : ℚ :=
  targetVolOf data volume_perc - volume (origOf data)

/-- `avg_w = sum(w for _,w in orig) / n` (src/hevy.py:241). -/
def avgWOf (data : ExerciseInput) : ℚ :=
  ((origOf data).map (fun s => s.2)).sum / ((origOf data).length : ℚ)

/-- Phase 0 flatten (src/hevy.py:245-253): clamp reps above `rep_cap`. -/
def flattenSets (rep_cap : ℤ) (orig : List SetRW) : List SetRW :=
  orig.map (fun s => if rep_cap < s.1 then (rep_cap, s.2) else s)

/-- Phase 0 recorded lost volume (src/hevy.py:246-251). -/
def lostVolume (rep_cap : ℤ) (orig : List SetRW) : ℚ :=
  (orig.map (fun s => if rep_cap < s.1 then ((s.1 - rep_cap : ℤ) : ℚ) * s.2 else 0)).sum

/-- The flattened base sets of a call. -/
def baseSetsOf (rep_cap : ℤ) (data : ExerciseInput) : List SetRW :=
  flattenSets rep_cap (origOf data)

/-- `rem0 = target_vol - vol0` (src/hevy.py:255). -/
def rem0Of (rep_cap : ℤ) (data : ExerciseInput) (volume_perc : ℚ) : ℚ :=
  targetVolOf data volume_perc - volume (baseSetsOf rep_cap data)

/-- The Phase-0 record (src/hevy.py:256-261). -/
def ph0Of (rep_cap : ℤ) (data : ExerciseInput) (volume_perc : ℚ) : Phase :=
  Phase.p0 (lostVolume rep_cap (origOf data)) (baseSetsOf rep_cap data)
    (rem0Of rep_cap data volume_perc)

/-- `full = int(rem1 // unit)` (src/hevy.py:292): number of full new sets. -/
def phase2Full (rep_cap : ℤ) (avg_w rem1 : ℚ) : ℤ := ⌊rem1 / ((rep_cap : ℚ) * avg_w)⌋

/-- The Phase-2 plan (src/hevy.py:294-297): `full` new sets of `rep_cap` reps
at the rounded average weight, plus one partial set when more than epsilon of
the deficit is left over. -/
def phase2Plan (rep_cap : ℤ) (avg_w rem1 : ℚ) : List SetRW :=
  let full := phase2Full rep_cap avg_w rem1
  let rem3 := rem1 - (full : ℚ) * ((rep_cap : ℚ) * avg_w)
  let plan0 := List.replicate full.toNat ((rep_cap, round2 avg_w) : SetRW)
  if eps < rem3 then plan0 ++ [(min rep_cap ⌈rem3 / avg_w⌉, round2 avg_w)] else plan0

/-- Phase 2, the new-set filler (src/hevy.py:290-310): append the Phase-2 plan
and record it as the final phase. -/
def phase2Result (delta target : ℚ) (phs : List Phase) (sets_so_far : List SetRW)
    (rem1 avg_w : ℚ) (rep_cap : ℤ) : OptResult :=
  let full := phase2Full rep_cap avg_w rem1
  let plan := phase2Plan rep_cap avg_w rem1
  let added3 := volume plan
  let final := sets_so_far ++ plan
  { delta := delta
    target_volume := target
    phases := phs ++ [Phase.p2 full ((plan.drop full.toNat).head?) added3 final (rem1 - added3)]
    final_sets := final }

/-- `Hevy.get_optimized_options` (src/hevy.py:219-310). -/
def get_optimized_options (data : ExerciseInput) (volume_perc : ℚ)
    (max_pct_weight_bump : ℚ := 1/10) (rep_floor : ℤ := 6) (rep_cap : ℤ := 12) : OptResult :=
  if origOf data = [] then ⟨0, 0, [], []⟩
  else
    let target_vol := targetVolOf data volume_perc
    let delta := deltaOf data volume_perc
    let base_sets := baseSetsOf rep_cap data
    let rem0 := rem0Of rep_cap data volume_perc
    let ph0 := ph0Of rep_cap data volume_perc
    if rem0 ≤ eps then ⟨delta, target_vol, [ph0], base_sets⟩
    else
      match optimize_weight_and_reps base_sets rem0 (avgWOf data) max_pct_weight_bump
          rep_floor rep_cap data.exercise with
      | some best =>
        let rem1 := rem0 - best.total_added
        let ph1 := Phase.p1 best.w_inc best.bump_reps best.total_added best.overshoot
          best.final_sets rem1
        if rem1 ≤ eps then ⟨delta, target_vol, [ph0, ph1], best.final_sets⟩
        else phase2Result delta target_vol [ph0, ph1] best.final_sets rem1 (avgWOf data) rep_cap
      | none => phase2Result delta target_vol [ph0] base_sets rem0 (avgWOf data) rep_cap

/-! ## Basic helpers -/

theorem eps_pos : 0 < eps := by norm_num [eps]

theorem volume_append (a b : List SetRW) : volume (a ++ b) = volume a + volume b := by
  simp [volume]

theorem volume_bumped (base : List SetRW) (w : ℚ) :
    volume (bumpedSets base w) = volume base + addedWeightVol base w := by
  induction base with
  | nil => simp [bumpedSets, volume, addedWeightVol]
  | cons s l ih =>
    simp only [bumpedSets, volume, addedWeightVol, List.map_cons, List.sum_cons] at ih ⊢
    ring_nf
    ring_nf at ih
    linarith

theorem getD_eq_default_of_le {α : Type} {l : List α} {i : ℕ} (h : l.length ≤ i) (d : α) :
    l.getD i d = d := by
  simp [List.getD_eq_getElem?_getD, List.getElem?_eq_none h]

theorem getD_set_self {α : Type} {l : List α} {i : ℕ} (h : i < l.length) (x d : α) :
    (l.set i x).getD i d = x := by
  induction l generalizing i with
  | nil => simp at h
  | cons a t ih =>
    cases i with
    | zero => simp
    | succ j => simpa using ih (i := j) (by simpa using h)

theorem getD_set_other {α : Type} (l : List α) {i j : ℕ} (hij : j ≠ i) (x d : α) :
    (l.set i x).getD j d = l.getD j d := by
  induction l generalizing i j with
  | nil => simp
  | cons a t ih =>
    cases i with
    | zero => cases j with
      | zero => exact absurd rfl hij
      | succ k => simp
    | succ i2 => cases j with
      | zero => simp
      | succ k => simpa using ih (i := i2) (j := k) (fun h => hij (by simpa using h))

/-- The weighted sum of rep bumps: Σ bump_r[i] * wb[i]. -/
def dotWB (br : List ℤ) (wb : List ℚ) : ℚ :=
  ((br.zip wb).map (fun p => (p.1 : ℚ) * p.2)).sum

theorem dotWB_set_add_one {br : List ℤ} {wb : List ℚ} {i : ℕ}
    (hi : i < br.length) (hl : br.length ≤ wb.length) :
    dotWB (br.set i (br.getD i 0 + 1)) wb = dotWB br wb + wb.getD i 0 := by
  induction br generalizing wb i with
  | nil => simp at hi
  | cons b t ih =>
    cases wb with
    | nil => simp at hl
    | cons w ws =>
      cases i with
      | zero => simp [dotWB]; ring
      | succ j =>
        have hj : j < t.length := by simpa using hi
        have hl2 : t.length ≤ ws.length := by simpa using hl
        simp only [List.set_cons_succ, List.getD_cons_succ, dotWB, List.zip_cons_cons,
          List.map_cons, List.sum_cons]
        have h2 := @ih ws j hj hl2
        simp only [dotWB] at h2
        rw [h2]
        ring

/-! ## Greedy loop invariants and termination (C9 infrastructure) -/

theorem findHeadroom_some {order : List ℕ} {cap_extra : List ℤ} {i : ℕ}
    (h : findHeadroom order cap_extra = some i) :
    0 < cap_extra.getD i 0 ∧ i ∈ order := by
  have h1 := List.find?_some h
  have h2 := List.mem_of_find?_eq_some h
  simp only [decide_eq_true_eq] at h1
  exact ⟨h1, h2⟩

theorem getD_pos_lt_length {l : List ℤ} {i : ℕ} (h : 0 < l.getD i 0) : i < l.length := by
  by_contra hc
  rw [getD_eq_default_of_le (Nat.le_of_not_lt hc)] at h
  exact lt_irrefl 0 h

theorem getD_toNat_le_capSum (l : List ℤ) (i : ℕ) : (l.getD i 0).toNat ≤ capSum l := by
  induction l generalizing i with
  | nil => simp [List.getD, capSum]
  | cons a t ih =>
    cases i with
    | zero => simp only [List.getD_cons_zero, capSum, List.map_cons, List.sum_cons]; omega
    | succ j =>
      simp only [List.getD_cons_succ, capSum, List.map_cons, List.sum_cons]
      have h := ih j
      simp only [capSum] at h
      omega

theorem capSum_set_pred {l : List ℤ} {i : ℕ} (h : 0 < l.getD i 0) :
    capSum (l.set i (l.getD i 0 - 1)) < capSum l := by
  induction l generalizing i with
  | nil => simp [List.getD] at h
  | cons a t ih =>
    cases i with
    | zero =>
      simp only [List.getD_cons_zero] at h ⊢
      simp only [List.set_cons_zero, capSum, List.map_cons, List.sum_cons]
      omega
    | succ j =>
      simp only [List.getD_cons_succ] at h ⊢
      simp only [List.set_cons_succ, capSum, List.map_cons, List.sum_cons]
      have h2 := ih h
      simp only [capSum] at h2
      omega

theorem greedyLoop_zero (wb : List ℚ) (order : List ℕ) (s : GreedyState) :
    greedyLoop wb order 0 s = s := rfl

theorem greedyLoop_succ_step {wb : List ℚ} {order : List ℕ} {s : GreedyState} {i : ℕ}
    (fuel : ℕ) (hrem : 0 < s.rem2) (hf : findHeadroom order s.cap_extra = some i) :
    greedyLoop wb order (fuel + 1) s = greedyLoop wb order fuel (greedyStep wb s i) := by
  simp [greedyLoop, hrem, hf]

theorem greedyLoop_done {wb : List ℚ} {order : List ℕ} {s : GreedyState} (fuel : ℕ)
    (h : s.rem2 ≤ 0 ∨ findHeadroom order s.cap_extra = none) :
    greedyLoop wb order fuel s = s := by
  cases fuel with
  | zero => rfl
  | succ f =>
    rcases h with h | h
    · simp [greedyLoop, not_lt.mpr h]
    · by_cases hrem : 0 < s.rem2
      · simp [greedyLoop, hrem, h]
      · simp [greedyLoop, hrem]

/-- After running with at least `capSum` fuel the loop is stopped: either the
deficit is met or no set in `order` has headroom left. -/
theorem greedyLoop_stops (wb : List ℚ) (order : List ℕ) :
    ∀ (fuel : ℕ) (s : GreedyState), capSum s.cap_extra ≤ fuel →
      (greedyLoop wb order fuel s).rem2 ≤ 0 ∨
        findHeadroom order (greedyLoop wb order fuel s).cap_extra = none := by
  intro fuel
  induction fuel with
  | zero =>
    intro s hs
    rw [greedyLoop_zero]
    right
    cases hf : findHeadroom order s.cap_extra with
    | none => rfl
    | some i =>
      obtain ⟨hpos, -⟩ := findHeadroom_some hf
      have h2 := getD_toNat_le_capSum s.cap_extra i
      omega
  | succ fuel ih =>
    intro s hs
    by_cases hrem : 0 < s.rem2
    · cases hf : findHeadroom order s.cap_extra with
      | none =>
        rw [greedyLoop_done _ (Or.inr hf)]
        exact Or.inr hf
      | some i =>
        rw [greedyLoop_succ_step fuel hrem hf]
        apply ih
        obtain ⟨hpos, -⟩ := findHeadroom_some hf
        have h2 := capSum_set_pred hpos
        simp only [greedyStep]
        omega
    · rw [greedyLoop_done _ (Or.inl (le_of_not_lt hrem))]
      exact Or.inl (le_of_not_lt hrem)

theorem runGreedy_stops (wb : List ℚ) (order : List ℕ) (s : GreedyState) :
    (runGreedy wb order s).rem2 ≤ 0 ∨
      findHeadroom order (runGreedy wb order s).cap_extra = none :=
  greedyLoop_stops wb order (capSum s.cap_extra) s le_rfl

/-! ## Greedy loop state invariants -/

/-- The invariants the greedy loop preserves, relative to the flattened base
sets, the bumped weights `wb` and the rep bumps `br0` made by the floor pass. -/
structure GInv (base : List SetRW) (wb : List ℚ) (rep_cap : ℤ) (br0 : List ℤ)
    (s : GreedyState) : Prop where
  len_b : s.bump_r.length = base.length
  len_c : s.cap_extra.length = base.length
  cap_eq : ∀ i, i < base.length →
    s.cap_extra.getD i 0 = rep_cap - (base.getD i (0, 0)).1 - s.bump_r.getD i 0
  mono : ∀ i, br0.getD i 0 ≤ s.bump_r.getD i 0
  dot : s.added_rvol = dotWB s.bump_r wb

theorem GInv.step {base : List SetRW} {wb : List ℚ} {rep_cap : ℤ} {br0 : List ℤ}
    {s : GreedyState} {i : ℕ} (hlen : base.length ≤ wb.length)
    (inv : GInv base wb rep_cap br0 s) (hpos : 0 < s.cap_extra.getD i 0) :
    GInv base wb rep_cap br0 (greedyStep wb s i) := by
  have hi : i < base.length := inv.len_c ▸ getD_pos_lt_length hpos
  constructor
  · simp [greedyStep, inv.len_b]
  · simp [greedyStep, inv.len_c]
  · intro j hj
    by_cases hji : j = i
    · subst hji
      simp only [greedyStep]
      rw [getD_set_self (by rw [inv.len_c]; exact hi) _ 0,
        getD_set_self (by rw [inv.len_b]; exact hi) _ 0,
        inv.cap_eq j hj]
      ring
    · simp only [greedyStep]
      rw [getD_set_other _ hji, getD_set_other _ hji, inv.cap_eq j hj]
  · intro j
    by_cases hji : j = i
    · subst hji
      simp only [greedyStep]
      rw [getD_set_self (by rw [inv.len_b]; exact hi) _ 0]
      have := inv.mono j
      omega
    · simp only [greedyStep]
      rw [getD_set_other _ hji]
      exact inv.mono j
  · simp only [greedyStep]
    rw [dotWB_set_add_one (by rw [inv.len_b]; exact hi) (by rw [inv.len_b]; exact hlen),
      inv.dot]

theorem GInv.loop {base : List SetRW} {wb : List ℚ} {rep_cap : ℤ} {br0 : List ℤ}
    (order : List ℕ) (hlen : base.length ≤ wb.length) :
    ∀ (fuel : ℕ) (s : GreedyState), GInv base wb rep_cap br0 s →
      GInv base wb rep_cap br0 (greedyLoop wb order fuel s) := by
  intro fuel
  induction fuel with
  | zero => intro s inv; exact inv
  | succ fuel ih =>
    intro s inv
    by_cases hrem : 0 < s.rem2
    · cases hf : findHeadroom order s.cap_extra with
      | none => rw [greedyLoop_done _ (Or.inr hf)]; exact inv
      | some i =>
        rw [greedyLoop_succ_step fuel hrem hf]
        exact ih _ (inv.step hlen (findHeadroom_some hf).1)
    · rw [greedyLoop_done _ (Or.inl (le_of_not_lt hrem))]
      exact inv

theorem GInv.run {base : List SetRW} {wb : List ℚ} {rep_cap : ℤ} {br0 : List ℤ}
    (order : List ℕ) (hlen : base.length ≤ wb.length) (s : GreedyState)
    (inv : GInv base wb rep_cap br0 s) :
    GInv base wb rep_cap br0 (runGreedy wb order s) :=
  GInv.loop order hlen (capSum s.cap_extra) s inv

/-- The loop never drives a nonnegative headroom entry negative. -/
theorem greedyLoop_nonneg (wb : List ℚ) (order : List ℕ) :
    ∀ (fuel : ℕ) (s : GreedyState), (∀ i, 0 ≤ s.cap_extra.getD i 0) →
      ∀ i, 0 ≤ (greedyLoop wb order fuel s).cap_extra.getD i 0 := by
  intro fuel
  induction fuel with
  | zero => intro s hs; exact hs
  | succ fuel ih =>
    intro s hs
    by_cases hrem : 0 < s.rem2
    · cases hf : findHeadroom order s.cap_extra with
      | none => rw [greedyLoop_done _ (Or.inr hf)]; exact hs
      | some i =>
        rw [greedyLoop_succ_step fuel hrem hf]
        apply ih
        obtain ⟨hpos, -⟩ := findHeadroom_some hf
        intro j
        by_cases hji : j = i
        · subst hji
          simp only [greedyStep]
          rw [getD_set_self (getD_pos_lt_length hpos) _ 0]
          omega
        · simp only [greedyStep]
          rw [getD_set_other _ hji]
          exact hs j
    · rw [greedyLoop_done _ (Or.inl (le_of_not_lt hrem))]
      exact hs

theorem runGreedy_nonneg (wb : List ℚ) (order : List ℕ) (s : GreedyState)
    (hs : ∀ i, 0 ≤ s.cap_extra.getD i 0) :
    ∀ i, 0 ≤ (runGreedy wb order s).cap_extra.getD i 0 :=
  greedyLoop_nonneg wb order (capSum s.cap_extra) s hs

/-! ## Facts about `evalCandidate` and `earlyCand` -/

theorem getD_map {α β : Type} {l : List α} {i : ℕ} (h : i < l.length)
    (f : α → β) (d : β) (d2 : α) : (l.map f).getD i d = f (l.getD i d2) := by
  induction l generalizing i with
  | nil => simp at h
  | cons a t ih =>
    cases i with
    | zero => simp
    | succ j => simpa using ih (i := j) (by simpa using h)

theorem dotWB_of_maps (base : List SetRW) (f : SetRW → ℤ) (g : SetRW → ℚ) :
    dotWB (base.map f) (base.map g) = (base.map (fun s => ((f s : ℤ) : ℚ) * g s)).sum := by
  induction base with
  | nil => simp [dotWB]
  | cons s t ih => simp only [List.map_cons, dotWB, List.zip_cons_cons, List.sum_cons,
      List.map_cons] at ih ⊢; rw [ih]

theorem volume_zip_bump (w_inc : ℚ) :
    ∀ (base : List SetRW) (br : List ℤ), br.length = base.length →
      volume ((base.zip br).map (fun p => (p.1.1 + p.2, p.1.2 + w_inc))) =
        volume base + addedWeightVol base w_inc +
          dotWB br ((bumpedSets base w_inc).map (fun s => s.2)) := by
  intro base
  induction base with
  | nil => intro br h; simp [volume, addedWeightVol, dotWB, bumpedSets]
  | cons s t ih =>
    intro br h
    cases br with
    | nil => simp at h
    | cons b bt =>
      have h2 := ih bt (by simpa using h)
      simp only [List.zip_cons_cons, List.map_cons, volume, List.sum_cons, addedWeightVol,
        bumpedSets, dotWB] at h2 ⊢
      push_cast
      ring_nf
      ring_nf at h2
      linarith

/-- The initial greedy state built by `evalCandidate` satisfies the invariant. -/
theorem evalCandidate_initial_inv (base : List SetRW) (delta : ℚ) (rep_floor rep_cap : ℤ)
    (w_inc : ℚ) :
    GInv base ((bumpedSets base w_inc).map (fun s => s.2)) rep_cap
      (base.map (fun s => floorNeed rep_floor s.1 (rep_cap - s.1)))
      ⟨base.map (fun s => floorNeed rep_floor s.1 (rep_cap - s.1)),
       base.map (fun s => (rep_cap - s.1) - floorNeed rep_floor s.1 (rep_cap - s.1)),
       (base.map (fun s =>
          ((floorNeed rep_floor s.1 (rep_cap - s.1) : ℤ) : ℚ) * (s.2 + w_inc))).sum,
       delta - addedWeightVol base w_inc -
         (base.map (fun s =>
            ((floorNeed rep_floor s.1 (rep_cap - s.1) : ℤ) : ℚ) * (s.2 + w_inc))).sum⟩ := by
  constructor
  · simp
  · simp
  · intro i hi
    rw [getD_map hi _ 0 (0, 0), getD_map hi _ 0 (0, 0)]
  · intro i
    exact le_refl _
  · show (base.map _).sum = dotWB (base.map _) ((bumpedSets base w_inc).map _)
    rw [show (bumpedSets base w_inc).map (fun s => s.2) =
        base.map (fun s => s.2 + w_inc) by simp [bumpedSets]]
    rw [dotWB_of_maps]

theorem evalCandidate_total_eq (base : List SetRW) (delta : ℚ) (rep_floor rep_cap : ℤ)
    (w_inc : ℚ) :
    (evalCandidate base delta rep_floor rep_cap w_inc).overshoot =
      (evalCandidate base delta rep_floor rep_cap w_inc).total_added - delta := rfl

theorem earlyCand_total_eq (base : List SetRW) (delta w_inc : ℚ) :
    (earlyCand base delta w_inc).overshoot =
      (earlyCand base delta w_inc).total_added - delta := rfl

theorem earlyCand_volume (base : List SetRW) (delta w_inc : ℚ) :
    volume ((earlyCand base delta w_inc).final_sets) =
      volume base + (earlyCand base delta w_inc).total_added :=
  volume_bumped base w_inc

theorem evalCandidate_volume (base : List SetRW) (delta : ℚ) (rep_floor rep_cap : ℤ)
    (w_inc : ℚ) :
    volume ((evalCandidate base delta rep_floor rep_cap w_inc).final_sets) =
      volume base + (evalCandidate base delta rep_floor rep_cap w_inc).total_added := by
  have inv := (evalCandidate_initial_inv base delta rep_floor rep_cap w_inc).run
    (orderOf ((bumpedSets base w_inc).map (fun s => s.2))) (by simp [bumpedSets]) _
  set wb := (bumpedSets base w_inc).map (fun s => s.2) with hwb
  show volume ((base.zip _).map _) = _
  rw [volume_zip_bump w_inc base _ (by rw [inv.len_b])]
  show _ = volume base + (addedWeightVol base w_inc + _)
  rw [← inv.dot]
  ring

/-! ## Shape of `owrLoop` results -/

theorem owrLoop_cons (base : List SetRW) (delta : ℚ) (fl cap : ℤ) (w : ℚ) (rest : List ℚ)
    (best : Option Cand) :
    owrLoop base delta fl cap (w :: rest) best =
      if delta - addedWeightVol base w ≤ 0 then some (earlyCand base delta w)
      else
        owrLoop base delta fl cap rest
          (if acceptedB (evalCandidate base delta fl cap w) then
            match best with
            | none => some (evalCandidate base delta fl cap w)
            | some b =>
              if betterCand (evalCandidate base delta fl cap w) b then
                some (evalCandidate base delta fl cap w)
              else some b
          else best) := rfl

/-- Every `some` result of the candidate loop is the initial best, an early
candidate at a covering increment, or an accepted greedy candidate. -/
theorem owrLoop_shape (base : List SetRW) (delta : ℚ) (fl cap : ℤ) :
    ∀ (cs : List ℚ) (best : Option Cand) (res : Cand),
      owrLoop base delta fl cap cs best = some res →
      best = some res ∨
        (∃ w ∈ cs, delta - addedWeightVol base w ≤ 0 ∧ res = earlyCand base delta w) ∨
        (∃ w ∈ cs, acceptedB (evalCandidate base delta fl cap w) = true ∧
          res = evalCandidate base delta fl cap w) := by
  intro cs
  induction cs with
  | nil => intro best res h; exact Or.inl h
  | cons w rest ih =>
    intro best res h
    rw [owrLoop_cons] at h
    by_cases hcov : delta - addedWeightVol base w ≤ 0
    · rw [if_pos hcov] at h
      exact Or.inr (Or.inl ⟨w, by simp, hcov, (Option.some_inj.mp h).symm⟩)
    · rw [if_neg hcov] at h
      rcases ih _ res h with h1 | h2 | h3
      · by_cases hacc : acceptedB (evalCandidate base delta fl cap w)
        · rw [if_pos hacc] at h1
          cases best with
          | none =>
            have h2 : some (evalCandidate base delta fl cap w) = some res := h1
            exact Or.inr (Or.inr ⟨w, by simp, hacc, (Option.some_inj.mp h2).symm⟩)
          | some b =>
            have h2 : (if betterCand (evalCandidate base delta fl cap w) b then
                some (evalCandidate base delta fl cap w) else some b) = some res := h1
            by_cases hb : betterCand (evalCandidate base delta fl cap w) b
            · rw [if_pos hb] at h2
              exact Or.inr (Or.inr ⟨w, by simp, hacc, (Option.some_inj.mp h2).symm⟩)
            · rw [if_neg hb] at h2
              exact Or.inl h2
        · rw [if_neg hacc] at h1
          exact Or.inl h1
      · obtain ⟨u, hu, hc, he⟩ := h2
        exact Or.inr (Or.inl ⟨u, by simp [hu], hc, he⟩)
      · obtain ⟨u, hu, hc, he⟩ := h3
        exact Or.inr (Or.inr ⟨u, by simp [hu], hc, he⟩)

theorem owr_shape {base : List SetRW} {delta avg mp : ℚ} {fl cap : ℤ} {nm : String} {res : Cand}
    (h : optimize_weight_and_reps base delta avg mp fl cap nm = some res) :
    (∃ w ∈ weightCandidates avg mp nm,
        delta - addedWeightVol base w ≤ 0 ∧ res = earlyCand base delta w) ∨
    (∃ w ∈ weightCandidates avg mp nm,
        acceptedB (evalCandidate base delta fl cap w) = true ∧
        res = evalCandidate base delta fl cap w) := by
  rcases owrLoop_shape base delta fl cap _ none res h with h1 | h2 | h3
  · exact absurd h1 (by simp)
  · exact Or.inl h2
  · exact Or.inr h3

theorem owr_overshoot_eq {base : List SetRW} {delta avg mp : ℚ} {fl cap : ℤ} {nm : String}
    {res : Cand} (h : optimize_weight_and_reps base delta avg mp fl cap nm = some res) :
    res.overshoot = res.total_added - delta := by
  rcases owr_shape h with ⟨w, -, -, he⟩ | ⟨w, -, -, he⟩ <;> subst he <;> rfl

theorem acceptedB_overshoot {c : Cand} (h : acceptedB c = true) : -eps ≤ c.overshoot := by
  unfold acceptedB at h
  simp only [Bool.and_eq_true, decide_eq_true_eq] at h
  exact h.2

theorem acceptedB_bump {c : Cand} (h : acceptedB c = true) : ∃ b ∈ c.bump_reps, b ≠ 0 := by
  unfold acceptedB at h
  simp only [Bool.and_eq_true, List.any_eq_true, decide_eq_true_eq] at h
  exact h.1

theorem owr_overshoot_ge {base : List SetRW} {delta avg mp : ℚ} {fl cap : ℤ} {nm : String}
    {res : Cand} (h : optimize_weight_and_reps base delta avg mp fl cap nm = some res) :
    -eps ≤ res.overshoot := by
  rcases owr_shape h with ⟨w, -, hc, he⟩ | ⟨w, -, hacc, he⟩
  · subst he
    show -eps ≤ addedWeightVol base w - delta
    have he2 := eps_pos
    linarith
  · subst he
    exact acceptedB_overshoot hacc

theorem owr_volume {base : List SetRW} {delta avg mp : ℚ} {fl cap : ℤ} {nm : String}
    {res : Cand} (h : optimize_weight_and_reps base delta avg mp fl cap nm = some res) :
    volume res.final_sets = volume base + res.total_added := by
  rcases owr_shape h with ⟨w, -, -, he⟩ | ⟨w, -, -, he⟩ <;> subst he
  · exact earlyCand_volume base delta w
  · exact evalCandidate_volume base delta fl cap w

/-! ## Claim theorems -/

/-- C9: for every candidate weight increment and base set list, the
one-rep-at-a-time greedy rep-fill loop of Phase 1 terminates (it is realized
here as the total function `runGreedy`, whose `capSum` fuel provably
suffices): the run stops exactly when the remaining deficit is no longer
positive or no set in the scan order has remaining headroom, it performs no
step on an already-stopped state, and running it again changes nothing. -/
theorem c9_greedy_rep_fill_terminates (wb : List ℚ) (order : List ℕ) (s : GreedyState) :
    ((runGreedy wb order s).rem2 ≤ 0 ∨
      findHeadroom order (runGreedy wb order s).cap_extra = none) ∧
    (s.rem2 ≤ 0 → runGreedy wb order s = s) ∧
    (findHeadroom order s.cap_extra = none → runGreedy wb order s = s) ∧
    runGreedy wb order (runGreedy wb order s) = runGreedy wb order s := by
  refine ⟨runGreedy_stops wb order s, ?_, ?_, ?_⟩
  · intro h
    exact greedyLoop_done _ (Or.inl h)
  · intro h
    exact greedyLoop_done _ (Or.inr h)
  · exact greedyLoop_done _ (runGreedy_stops wb order s)

/-- Witness for C9 at a concrete input. -/
theorem c9_greedy_rep_fill_terminates_witness :
    runGreedy [1] [0] ⟨[0], [0], 0, 0⟩ = ⟨[0], [0], 0, 0⟩ :=
  (c9_greedy_rep_fill_terminates [1] [0] ⟨[0], [0], 0, 0⟩).2.1 le_rfl

theorem origOf_eq_nil {data : ExerciseInput}
    (h : ∀ s ∈ data.sets, s.1 = none ∨ s.2 = none) : origOf data = [] := by
  unfold origOf
  rw [List.filterMap_eq_nil_iff]
  intro s hs
  rcases h s hs with h1 | h1
  · rw [h1]
  · rw [h1]
    rcases s.1 with - | r <;> rfl

/-- C4: when every raw set has a null reps or a null weight (so none survive
the null filter), the optimizer returns, without raising, the zero result:
delta = 0, target_volume = 0, no phases, empty final_sets. -/
theorem c4_all_null_gives_zero_result (data : ExerciseInput) (volume_perc max_pct : ℚ)
    (rep_floor rep_cap : ℤ) (h : ∀ s ∈ data.sets, s.1 = none ∨ s.2 = none) :
    get_optimized_options data volume_perc max_pct rep_floor rep_cap =
      ⟨0, 0, [], []⟩ := by
  unfold get_optimized_options
  rw [if_pos (origOf_eq_nil h)]

/-- Witness for C4 at a concrete input. -/
theorem c4_all_null_gives_zero_result_witness :
    get_optimized_options ⟨"Bench", [(none, some 5), (some 3, none)]⟩ 1 (1/10) 6 12 =
      ⟨0, 0, [], []⟩ :=
  c4_all_null_gives_zero_result _ 1 (1/10) 6 12 (by decide)

/-! ## Path lemmas for `get_optimized_options` -/

theorem goo_empty {data : ExerciseInput} (p mp : ℚ) (fl cap : ℤ)
    (h : origOf data = []) :
    get_optimized_options data p mp fl cap = ⟨0, 0, [], []⟩ := by
  unfold get_optimized_options
  rw [if_pos h]

theorem goo_phase0 {data : ExerciseInput} (p mp : ℚ) (fl cap : ℤ)
    (h1 : origOf data ≠ []) (h2 : rem0Of cap data p ≤ eps) :
    get_optimized_options data p mp fl cap =
      ⟨deltaOf data p, targetVolOf data p, [ph0Of cap data p], baseSetsOf cap data⟩ := by
  simp only [get_optimized_options]
  rw [if_neg h1, if_pos h2]

theorem goo_phase1_ret {data : ExerciseInput} {p : ℚ} (mp : ℚ) (fl : ℤ) {cap : ℤ} {best : Cand}
    (h1 : origOf data ≠ []) (h2 : ¬ rem0Of cap data p ≤ eps)
    (h3 : optimize_weight_and_reps (baseSetsOf cap data) (rem0Of cap data p) (avgWOf data)
      mp fl cap data.exercise = some best)
    (h4 : rem0Of cap data p - best.total_added ≤ eps) :
    get_optimized_options data p mp fl cap =
      ⟨deltaOf data p, targetVolOf data p,
       [ph0Of cap data p,
        Phase.p1 best.w_inc best.bump_reps best.total_added best.overshoot best.final_sets
          (rem0Of cap data p - best.total_added)],
       best.final_sets⟩ := by
  simp only [get_optimized_options, h3]
  rw [if_neg h1, if_neg h2, if_pos h4]

theorem goo_phase1_phase2 {data : ExerciseInput} {p : ℚ} (mp : ℚ) (fl : ℤ) {cap : ℤ}
    {best : Cand} (h1 : origOf data ≠ []) (h2 : ¬ rem0Of cap data p ≤ eps)
    (h3 : optimize_weight_and_reps (baseSetsOf cap data) (rem0Of cap data p) (avgWOf data)
      mp fl cap data.exercise = some best)
    (h4 : ¬ rem0Of cap data p - best.total_added ≤ eps) :
    get_optimized_options data p mp fl cap =
      phase2Result (deltaOf data p) (targetVolOf data p)
        [ph0Of cap data p,
         Phase.p1 best.w_inc best.bump_reps best.total_added best.overshoot best.final_sets
           (rem0Of cap data p - best.total_added)]
        best.final_sets (rem0Of cap data p - best.total_added) (avgWOf data) cap := by
  simp only [get_optimized_options, h3]
  rw [if_neg h1, if_neg h2, if_neg h4]

theorem goo_phase2 {data : ExerciseInput} {p : ℚ} (mp : ℚ) (fl : ℤ) {cap : ℤ}
    (h1 : origOf data ≠ []) (h2 : ¬ rem0Of cap data p ≤ eps)
    (h3 : optimize_weight_and_reps (baseSetsOf cap data) (rem0Of cap data p) (avgWOf data)
      mp fl cap data.exercise = none) :
    get_optimized_options data p mp fl cap =
      phase2Result (deltaOf data p) (targetVolOf data p) [ph0Of cap data p]
        (baseSetsOf cap data) (rem0Of cap data p) (avgWOf data) cap := by
  simp only [get_optimized_options, h3]
  rw [if_neg h1, if_neg h2]

/-! ## Zero-weight inputs (C3 infrastructure) -/

theorem volume_of_weights_zero {l : List SetRW} (h : ∀ s ∈ l, s.2 = 0) : volume l = 0 := by
  induction l with
  | nil => rfl
  | cons s t ih =>
    simp only [volume, List.map_cons, List.sum_cons] at ih ⊢
    rw [h s (by simp), ih fun u hu => h u (by simp [hu])]
    ring

theorem flattenSets_weights (cap : ℤ) (l : List SetRW) :
    (flattenSets cap l).map (fun s => s.2) = l.map (fun s => s.2) := by
  induction l with
  | nil => rfl
  | cons s t ih =>
    simp only [flattenSets, List.map_cons] at ih ⊢
    rw [ih]
    by_cases h : cap < s.1 <;> simp [h]

theorem flattenSets_weight_zero {cap : ℤ} {l : List SetRW} (h : ∀ s ∈ l, s.2 = 0) :
    ∀ s ∈ flattenSets cap l, s.2 = 0 := by
  intro s hs
  simp only [flattenSets, List.mem_map] at hs
  obtain ⟨u, hu, he⟩ := hs
  by_cases hc : cap < u.1
  · rw [if_pos hc] at he
    rw [← he]
    exact h u hu
  · rw [if_neg hc] at he
    rw [← he]
    exact h u hu

theorem rem0_of_weights_zero {data : ExerciseInput} (cap : ℤ) (p : ℚ)
    (h : ∀ s ∈ origOf data, s.2 = 0) : rem0Of cap data p = 0 := by
  unfold rem0Of targetVolOf baseSetsOf
  rw [volume_of_weights_zero h, volume_of_weights_zero (flattenSets_weight_zero h)]
  ring

theorem all_weights_zero_of_sum_nonpos {l : List SetRW} (hw : ∀ s ∈ l, 0 ≤ s.2)
    (h : (l.map (fun s => s.2)).sum ≤ 0) : ∀ s ∈ l, s.2 = 0 := by
  induction l with
  | nil => intro s hs; simp at hs
  | cons a t ih =>
    simp only [List.map_cons, List.sum_cons] at h
    have ha : 0 ≤ a.2 := hw a (by simp)
    have ht : 0 ≤ (t.map (fun s => s.2)).sum :=
      List.sum_nonneg (by
        intro x hx
        simp only [List.mem_map] at hx
        obtain ⟨u, hu, he⟩ := hx
        rw [← he]
        exact hw u (by simp [hu]))
    intro s hs
    rcases List.mem_cons.mp hs with hs | hs
    · subst hs; linarith
    · exact ih (fun u hu => hw u (by simp [hu])) (by linarith) s hs

theorem avgW_pos_of_rem0 {data : ExerciseInput} {cap : ℤ} {p : ℚ}
    (hw : ∀ s ∈ origOf data, 0 ≤ s.2) (h1 : origOf data ≠ [])
    (h2 : ¬ rem0Of cap data p ≤ eps) : 0 < avgWOf data := by
  by_contra hc
  push_neg at hc
  have hn : 0 < ((origOf data).length : ℚ) := by
    have := List.length_pos.mpr h1
    exact_mod_cast this
  have hsum : ((origOf data).map (fun s => s.2)).sum ≤ 0 := by
    unfold avgWOf at hc
    by_contra hs
    push_neg at hs
    have := div_pos hs hn
    linarith
  have hz := all_weights_zero_of_sum_nonpos hw hsum
  have := rem0_of_weights_zero cap p hz
  rw [this] at h2
  exact h2 (le_of_lt eps_pos)

/-- C3: for well-formed input (non-negative reps and weights after
null-filtering, volume_perc ≥ 0) the optimizer — a total Lean function here,
so it raises nothing — reaches Phase 2 (where it divides by the average
weight) only with a strictly positive average weight; an all-zero-weight
input has deficit ≤ epsilon at Phase 0 and returns there with exactly the
flattened sets. -/
theorem c3_optimizer_total_and_phase2_needs_positive_avg (data : ExerciseInput)
    (p mp : ℚ) (fl cap : ℤ) (hp : 0 ≤ p)
    (hr : ∀ s ∈ origOf data, 0 ≤ s.1) (hw : ∀ s ∈ origOf data, 0 ≤ s.2) :
    ((get_optimized_options data p mp fl cap).phases.any Phase.isP2 = true →
      0 < avgWOf data) ∧
    ((∀ s ∈ origOf data, s.2 = 0) → origOf data ≠ [] →
      get_optimized_options data p mp fl cap =
        ⟨deltaOf data p, targetVolOf data p, [ph0Of cap data p], baseSetsOf cap data⟩ ∧
      rem0Of cap data p = 0) := by
  constructor
  · intro hp2
    by_cases h1 : origOf data = []
    · rw [goo_empty p mp fl cap h1] at hp2
      simp at hp2
    by_cases h2 : rem0Of cap data p ≤ eps
    · rw [goo_phase0 p mp fl cap h1 h2] at hp2
      simp [ph0Of, Phase.isP2] at hp2
    · exact avgW_pos_of_rem0 hw h1 h2
  · intro hz h1
    have h0 := rem0_of_weights_zero cap p hz
    exact ⟨goo_phase0 p mp fl cap h1 (by rw [h0]; exact le_of_lt eps_pos), h0⟩

/-- Witness for C3 at a concrete all-zero-weight input. -/
theorem c3_optimizer_total_and_phase2_needs_positive_avg_witness :
    ((get_optimized_options ⟨"Bench", [(some 5, some 0)]⟩ 1 (1/10) 6 12).phases.any
        Phase.isP2 = true → 0 < avgWOf ⟨"Bench", [(some 5, some 0)]⟩) ∧
    ((∀ s ∈ origOf ⟨"Bench", [(some 5, some 0)]⟩, s.2 = 0) →
      origOf ⟨"Bench", [(some 5, some 0)]⟩ ≠ [] →
      get_optimized_options ⟨"Bench", [(some 5, some 0)]⟩ 1 (1/10) 6 12 =
        ⟨deltaOf ⟨"Bench", [(some 5, some 0)]⟩ 1, targetVolOf ⟨"Bench", [(some 5, some 0)]⟩ 1,
         [ph0Of 12 ⟨"Bench", [(some 5, some 0)]⟩ 1], baseSetsOf 12 ⟨"Bench", [(some 5, some 0)]⟩⟩ ∧
      rem0Of 12 ⟨"Bench", [(some 5, some 0)]⟩ 1 = 0) :=
  c3_optimizer_total_and_phase2_needs_positive_avg ⟨"Bench", [(some 5, some 0)]⟩ 1 (1/10) 6 12
    (by norm_num) (by decide) (by decide)

/-! ## C6: Phase 0 flatten -/

theorem baseSetsOf_length (cap : ℤ) (data : ExerciseInput) :
    (baseSetsOf cap data).length = (origOf data).length := by
  simp [baseSetsOf, flattenSets]

theorem flattenSets_get (cap : ℤ) (l : List SetRW) (i : ℕ) (h : i < l.length) :
    (flattenSets cap l).get ⟨i, by simpa [flattenSets] using h⟩ =
      (min (l.get ⟨i, h⟩).1 cap, (l.get ⟨i, h⟩).2) := by
  simp only [flattenSets, List.get_eq_getElem, List.getElem_map]
  by_cases hc : cap < (l.get ⟨i, h⟩).1
  · simp only [List.get_eq_getElem] at hc
    rw [if_pos hc]
    have : min (l[i]).1 cap = cap := min_eq_right (le_of_lt hc)
    rw [this]
  · simp only [List.get_eq_getElem] at hc
    rw [if_neg hc]
    have : min (l[i]).1 cap = (l[i]).1 := min_eq_left (le_of_not_lt hc)
    rw [this]

/-- C6: Phase 0 clamps every filtered set's reps at rep_cap (leaving weights
and sub-cap sets unchanged), records the lost volume
Σ (reps − rep_cap)×weight over the clamped sets together with the remaining
deficit target − flattened volume as the head phase record, and when that
deficit is ≤ epsilon the optimizer returns the flattened sets as final_sets
with exactly one phase record. -/
theorem c6_phase0_flatten_and_early_return (data : ExerciseInput) (p mp : ℚ) (fl cap : ℤ)
    (h1 : origOf data ≠ []) :
    ((get_optimized_options data p mp fl cap).phases.head? = some (ph0Of cap data p)) ∧
    (∀ i (h : i < (origOf data).length),
      (baseSetsOf cap data).get ⟨i, by rw [baseSetsOf_length]; exact h⟩ =
        (min ((origOf data).get ⟨i, h⟩).1 cap, ((origOf data).get ⟨i, h⟩).2)) ∧
    (ph0Of cap data p =
      Phase.p0
        ((origOf data).map (fun s => if cap < s.1 then ((s.1 - cap : ℤ) : ℚ) * s.2 else 0)).sum
        (baseSetsOf cap data)
        (targetVolOf data p - volume (baseSetsOf cap data))) ∧
    (rem0Of cap data p ≤ eps →
      get_optimized_options data p mp fl cap =
        ⟨deltaOf data p, targetVolOf data p, [ph0Of cap data p], baseSetsOf cap data⟩) := by
  refine ⟨?_, ?_, rfl, fun h2 => goo_phase0 p mp fl cap h1 h2⟩
  · by_cases h2 : rem0Of cap data p ≤ eps
    · rw [goo_phase0 p mp fl cap h1 h2]
      rfl
    · cases howr : optimize_weight_and_reps (baseSetsOf cap data) (rem0Of cap data p)
        (avgWOf data) mp fl cap data.exercise with
      | none =>
        rw [goo_phase2 mp fl h1 h2 howr]
        simp [phase2Result]
      | some best =>
        by_cases h4 : rem0Of cap data p - best.total_added ≤ eps
        · rw [goo_phase1_ret mp fl h1 h2 howr h4]
          rfl
        · rw [goo_phase1_phase2 mp fl h1 h2 howr h4]
          simp [phase2Result]
  · intro i h
    exact flattenSets_get cap (origOf data) i h

/-- Witness for C6 at a concrete input with one set above the rep cap. -/
theorem c6_phase0_flatten_and_early_return_witness :
    ((get_optimized_options ⟨"Bench", [(some 20, some 0)]⟩ 0 (1/10) 6 12).phases.head? =
      some (ph0Of 12 ⟨"Bench", [(some 20, some 0)]⟩ 0)) ∧
    (∀ i (h : i < (origOf ⟨"Bench", [(some 20, some 0)]⟩).length),
      (baseSetsOf 12 ⟨"Bench", [(some 20, some 0)]⟩).get
          ⟨i, by rw [baseSetsOf_length]; exact h⟩ =
        (min ((origOf ⟨"Bench", [(some 20, some 0)]⟩).get ⟨i, h⟩).1 12,
         ((origOf ⟨"Bench", [(some 20, some 0)]⟩).get ⟨i, h⟩).2)) ∧
    (ph0Of 12 ⟨"Bench", [(some 20, some 0)]⟩ 0 =
      Phase.p0
        ((origOf ⟨"Bench", [(some 20, some 0)]⟩).map
          (fun s => if 12 < s.1 then ((s.1 - 12 : ℤ) : ℚ) * s.2 else 0)).sum
        (baseSetsOf 12 ⟨"Bench", [(some 20, some 0)]⟩)
        (targetVolOf ⟨"Bench", [(some 20, some 0)]⟩ 0 -
          volume (baseSetsOf 12 ⟨"Bench", [(some 20, some 0)]⟩))) ∧
    (rem0Of 12 ⟨"Bench", [(some 20, some 0)]⟩ 0 ≤ eps →
      get_optimized_options ⟨"Bench", [(some 20, some 0)]⟩ 0 (1/10) 6 12 =
        ⟨deltaOf ⟨"Bench", [(some 20, some 0)]⟩ 0, targetVolOf ⟨"Bench", [(some 20, some 0)]⟩ 0,
         [ph0Of 12 ⟨"Bench", [(some 20, some 0)]⟩ 0],
         baseSetsOf 12 ⟨"Bench", [(some 20, some 0)]⟩⟩) :=
  c6_phase0_flatten_and_early_return ⟨"Bench", [(some 20, some 0)]⟩ 0 (1/10) 6 12 (by decide)

/-! ## C10: a Phase-1 winner always closes the deficit to within epsilon -/

/-- C10: every non-None result of `optimize_weight_and_reps` has
overshoot ≥ −1e-6; consequently in `get_optimized_options` the remaining
deficit after a Phase-1 winner is ≤ 1e-6 and the function returns before
Phase 2, so a result never carries both a phase-1 and a phase-2 record, and
a phase-2 record occurs exactly when Phase 1 returned no candidate. -/
theorem c10_winner_overshoot_and_phase_exclusion :
    (∀ (base : List SetRW) (delta avg mp : ℚ) (fl cap : ℤ) (nm : String) (res : Cand),
      optimize_weight_and_reps base delta avg mp fl cap nm = some res →
        -eps ≤ res.overshoot) ∧
    (∀ (data : ExerciseInput) (p mp : ℚ) (fl cap : ℤ),
      ¬((get_optimized_options data p mp fl cap).phases.any Phase.isP1 = true ∧
        (get_optimized_options data p mp fl cap).phases.any Phase.isP2 = true)) ∧
    (∀ (data : ExerciseInput) (p mp : ℚ) (fl cap : ℤ),
      (get_optimized_options data p mp fl cap).phases.any Phase.isP2 = true →
        optimize_weight_and_reps (baseSetsOf cap data) (rem0Of cap data p) (avgWOf data)
          mp fl cap data.exercise = none) := by
  have key : ∀ (data : ExerciseInput) (p mp : ℚ) (fl cap : ℤ) (best : Cand),
      optimize_weight_and_reps (baseSetsOf cap data) (rem0Of cap data p) (avgWOf data)
        mp fl cap data.exercise = some best →
      rem0Of cap data p - best.total_added ≤ eps := by
    intro data p mp fl cap best howr
    have h1 := owr_overshoot_ge howr
    have h2 := owr_overshoot_eq howr
    rw [h2] at h1
    linarith
  refine ⟨fun base delta avg mp fl cap nm res h => owr_overshoot_ge h, ?_, ?_⟩
  · intro data p mp fl cap
    by_cases h1 : origOf data = []
    · rw [goo_empty p mp fl cap h1]
      simp
    by_cases h2 : rem0Of cap data p ≤ eps
    · rw [goo_phase0 p mp fl cap h1 h2]
      simp [ph0Of, Phase.isP2]
    cases howr : optimize_weight_and_reps (baseSetsOf cap data) (rem0Of cap data p)
        (avgWOf data) mp fl cap data.exercise with
    | none =>
      rw [goo_phase2 mp fl h1 h2 howr]
      simp [phase2Result, ph0Of, Phase.isP1, Phase.isP2]
    | some best =>
      rw [goo_phase1_ret mp fl h1 h2 howr (key data p mp fl cap best howr)]
      simp [ph0Of, Phase.isP1, Phase.isP2]
  · intro data p mp fl cap hp2
    by_cases h1 : origOf data = []
    · rw [goo_empty p mp fl cap h1] at hp2
      simp at hp2
    by_cases h2 : rem0Of cap data p ≤ eps
    · rw [goo_phase0 p mp fl cap h1 h2] at hp2
      simp [ph0Of, Phase.isP2] at hp2
    cases howr : optimize_weight_and_reps (baseSetsOf cap data) (rem0Of cap data p)
        (avgWOf data) mp fl cap data.exercise with
    | none => rfl
    | some best =>
      rw [goo_phase1_ret mp fl h1 h2 howr (key data p mp fl cap best howr)] at hp2
      simp [ph0Of, Phase.isP2] at hp2

/-! ## C1 (amended): the last phase record always measures the true shortfall -/

theorem rem0Of_eq (cap : ℤ) (data : ExerciseInput) (p : ℚ) :
    rem0Of cap data p = targetVolOf data p - volume (baseSetsOf cap data) := rfl

/-- C1 (amended): for every input with at least one usable set, the `remaining`
field of the last phase record equals `target_volume` minus the volume of
`final_sets`; hence either `final_sets` reaches the target up to epsilon, or
the shortfall is explicitly flagged by a last `remaining` strictly above
epsilon.  (The original claim tied the shortfall case to §7b's infeasible
condition — zero average weight or rep_cap ≤ rep_floor — which the
counterexample refutes: Phase 2's rounding of the average weight to two
decimals can undershoot by more than epsilon on feasible inputs.) -/
theorem c1_last_phase_flags_shortfall (data : ExerciseInput) (p mp : ℚ) (fl cap : ℤ)
    (h1 : origOf data ≠ []) :
    ((get_optimized_options data p mp fl cap).phases.getLastD (Phase.p0 0 [] 0)).remaining =
      (get_optimized_options data p mp fl cap).target_volume -
        volume (get_optimized_options data p mp fl cap).final_sets ∧
    ((get_optimized_options data p mp fl cap).target_volume - eps ≤
        volume (get_optimized_options data p mp fl cap).final_sets ∨
      eps < ((get_optimized_options data p mp fl cap).phases.getLastD
        (Phase.p0 0 [] 0)).remaining) := by
  have main : ((get_optimized_options data p mp fl cap).phases.getLastD
        (Phase.p0 0 [] 0)).remaining =
      (get_optimized_options data p mp fl cap).target_volume -
        volume (get_optimized_options data p mp fl cap).final_sets := by
    by_cases h2 : rem0Of cap data p ≤ eps
    · rw [goo_phase0 p mp fl cap h1 h2]
      simp only [List.getLastD_cons, List.getLastD_nil, ph0Of, Phase.remaining, rem0Of_eq]
    · cases howr : optimize_weight_and_reps (baseSetsOf cap data) (rem0Of cap data p)
          (avgWOf data) mp fl cap data.exercise with
      | none =>
        rw [goo_phase2 mp fl h1 h2 howr]
        simp only [phase2Result, List.getLastD_concat, Phase.remaining]
        rw [volume_append, rem0Of_eq]
        ring
      | some best =>
        have hvol := owr_volume howr
        by_cases h4 : rem0Of cap data p - best.total_added ≤ eps
        · rw [goo_phase1_ret mp fl h1 h2 howr h4]
          simp only [List.getLastD_cons, List.getLastD_nil, Phase.remaining]
          rw [hvol, rem0Of_eq]
          ring
        · rw [goo_phase1_phase2 mp fl h1 h2 howr h4]
          simp only [phase2Result, List.getLastD_concat, Phase.remaining]
          rw [volume_append, hvol, rem0Of_eq]
          ring
  refine ⟨main, ?_⟩
  rw [main]
  by_cases hc : (get_optimized_options data p mp fl cap).target_volume - eps ≤
      volume (get_optimized_options data p mp fl cap).final_sets
  · exact Or.inl hc
  · push_neg at hc
    right
    linarith

/-- C1 counterexample: the input [(1 rep, 0.001 kg)] with volume_perc = 1 is
well-formed, non-empty and feasible in the sense of §7b (average weight
positive, rep_floor < rep_cap), yet the optimizer's final_sets volume
(0.001) falls short of target_volume (0.002) by more than epsilon, because
Phase 2 rounds the average weight 0.001 down to 0.00 for the new set. -/
theorem c1_counterexample :
    origOf ⟨"Bench", [(some 1, some (1/1000))]⟩ ≠ [] ∧
    (∀ s ∈ origOf ⟨"Bench", [(some 1, some (1/1000))]⟩, 0 ≤ s.1 ∧ 0 ≤ s.2) ∧
    (0:ℚ) ≤ 1 ∧
    avgWOf ⟨"Bench", [(some 1, some (1/1000))]⟩ ≠ 0 ∧ (6:ℤ) < 12 ∧
    volume (get_optimized_options ⟨"Bench", [(some 1, some (1/1000))]⟩ 1 (1/10) 6 12).final_sets <
      (get_optimized_options ⟨"Bench", [(some 1, some (1/1000))]⟩ 1
        (1/10) 6 12).target_volume - eps := by
  have horig : origOf ⟨"Bench", [(some 1, some (1/1000))]⟩ = [((1:ℤ), (1/1000:ℚ))] := rfl
  have h1 : origOf ⟨"Bench", [(some 1, some (1/1000))]⟩ ≠ [] := by rw [horig]; simp
  have hbase : baseSetsOf 12 ⟨"Bench", [(some 1, some (1/1000))]⟩ = [((1:ℤ), (1/1000:ℚ))] := by
    rw [baseSetsOf, horig]
    simp [flattenSets]
  have htarget : targetVolOf ⟨"Bench", [(some 1, some (1/1000))]⟩ 1 = 1/500 := by
    rw [targetVolOf, horig]
    norm_num [volume]
  have hrem0 : rem0Of 12 ⟨"Bench", [(some 1, some (1/1000))]⟩ 1 = 1/1000 := by
    rw [rem0Of_eq, htarget, hbase]
    norm_num [volume]
  have havg : avgWOf ⟨"Bench", [(some 1, some (1/1000))]⟩ = 1/1000 := by
    rw [avgWOf, horig]
    norm_num
  have hfloor : (⌊(1/1000 : ℚ) * (1/10) / (5/4)⌋ : ℤ) = 0 := by norm_num
  have hcand : weightCandidates (1/1000) (1/10) "Bench" = [] := by
    rw [weightCandidates, if_neg (by decide), hfloor]
    rfl
  have howr : optimize_weight_and_reps [((1:ℤ), (1/1000:ℚ))] (1/1000) (1/1000) (1/10) 6 12
      "Bench" = none := by
    rw [optimize_weight_and_reps, hcand]
    rfl
  have h2 : ¬ rem0Of 12 ⟨"Bench", [(some 1, some (1/1000))]⟩ 1 ≤ eps := by
    rw [hrem0]; norm_num [eps]
  refine ⟨h1, by rw [horig]; intro s hs; simp at hs; rw [hs]; norm_num, by norm_num,
    by rw [havg]; norm_num, by norm_num, ?_⟩
  have hres := goo_phase2 (1/10) 6 h1 h2 (by rw [hbase, hrem0, havg]; exact howr)
  rw [hres]
  have hfull : phase2Full 12 (avgWOf ⟨"Bench", [(some 1, some (1/1000))]⟩)
      (rem0Of 12 ⟨"Bench", [(some 1, some (1/1000))]⟩ 1) = 0 := by
    rw [phase2Full, havg, hrem0]
    norm_num
  have hplan : phase2Plan 12 (avgWOf ⟨"Bench", [(some 1, some (1/1000))]⟩)
      (rem0Of 12 ⟨"Bench", [(some 1, some (1/1000))]⟩ 1) = [((1:ℤ), (0:ℚ))] := by
    rw [phase2Plan, hfull, havg, hrem0]
    rw [if_pos (by norm_num [eps])]
    have hr2 : round2 (1/1000 : ℚ) = 0 := by
      rw [round2]
      norm_num
    rw [hr2]
    simp only [Int.toNat_zero, List.replicate_zero, List.nil_append, Int.cast_zero]
    norm_num [min_def]
  show volume (baseSetsOf 12 _ ++ phase2Plan 12 _ _) < targetVolOf _ 1 - eps
  rw [volume_append, hplan, hbase, htarget]
  norm_num [volume, eps]

/-- Witness for the amended C1 at a concrete input. -/
theorem c1_last_phase_flags_shortfall_witness :
    ((get_optimized_options ⟨"Bench", [(some 1, some (1/1000))]⟩ 1 (1/10) 6 12).phases.getLastD
        (Phase.p0 0 [] 0)).remaining =
      (get_optimized_options ⟨"Bench", [(some 1, some (1/1000))]⟩ 1 (1/10) 6 12).target_volume -
        volume (get_optimized_options ⟨"Bench", [(some 1, some (1/1000))]⟩ 1
          (1/10) 6 12).final_sets ∧
    ((get_optimized_options ⟨"Bench", [(some 1, some (1/1000))]⟩ 1 (1/10) 6 12).target_volume -
        eps ≤
        volume (get_optimized_options ⟨"Bench", [(some 1, some (1/1000))]⟩ 1
          (1/10) 6 12).final_sets ∨
      eps < ((get_optimized_options ⟨"Bench", [(some 1, some (1/1000))]⟩ 1
        (1/10) 6 12).phases.getLastD (Phase.p0 0 [] 0)).remaining) :=
  c1_last_phase_flags_shortfall ⟨"Bench", [(some 1, some (1/1000))]⟩ 1 (1/10) 6 12 (by decide)

/-- Witness for C10: a concrete Phase-1 winner (the Leg Press single
candidate, taken by the early return) has overshoot ≥ −epsilon. -/
theorem c10_winner_overshoot_and_phase_exclusion_witness :
    -eps ≤ (earlyCand [((11:ℤ), (100:ℚ))] 5 9).overshoot :=
  c10_winner_overshoot_and_phase_exclusion.1 [((11:ℤ), (100:ℚ))] 5 100 (1/10) 6 12
    legPressName (earlyCand [((11:ℤ), (100:ℚ))] 5 9)
    (by
      rw [optimize_weight_and_reps, weightCandidates, if_pos rfl, owrLoop_cons,
        if_pos (by norm_num [addedWeightVol])])

/-! ## C8: the two volume calculators -/

theorem calc_volume_eq_specVolume (l : List RawSet) : calc_volume l = specVolume l := by
  unfold calc_volume specVolume
  induction l with
  | nil => rfl
  | cons s t ih =>
    simp only [List.map_cons, List.sum_cons]
    rw [ih]
    ring

theorem except_bind_ok {e a b : Type} (x : a) (f : a → Except e b) :
    (Except.ok x >>= f) = f x := rfl

theorem calculate_exercise_volume_go {l : List RawSet}
    (h : ∀ s ∈ l, s.weight_kg ≠ none ∧ s.reps ≠ none) :
    ∀ acc : ℚ, l.foldlM
      (fun acc s =>
        match s.weight_kg with
        | none => Except.error "KeyError: weight_kg"
        | some w =>
          if truthyQ w then
            match s.reps with
            | none => Except.error "KeyError: reps"
            | some r =>
              Except.ok (acc + if truthyZ r then w.getD 0 * ((r.getD 0 : ℤ) : ℚ) else 0)
          else Except.ok (acc + 0))
      acc = Except.ok (acc + specVolume l) := by
  induction l with
  | nil =>
    intro acc
    simp only [List.foldlM_nil, specVolume, List.map_nil, List.sum_nil, add_zero]
    rfl
  | cons s t ih =>
    intro acc
    obtain ⟨hw, hr⟩ := h s (by simp)
    obtain ⟨w, hweq⟩ := Option.ne_none_iff_exists'.mp hw
    obtain ⟨r, hreq⟩ := Option.ne_none_iff_exists'.mp hr
    have ht : ∀ u ∈ t, u.weight_kg ≠ none ∧ u.reps ≠ none := fun u hu => h u (by simp [hu])
    have hspec : specVolume (s :: t) =
        (((s.reps.getD (some 0)).getD 0 : ℤ) : ℚ) * ((s.weight_kg.getD (some 0)).getD 0) +
          specVolume t := by
      simp [specVolume]
    rw [List.foldlM_cons, hweq]
    by_cases htw : truthyQ w
    · simp only [if_pos htw, hreq]
      rw [except_bind_ok]
      rw [ih ht]
      congr 1
      rw [hspec, hweq, hreq]
      simp only [Option.getD_some]
      by_cases htr : truthyZ r
      · rw [if_pos htr]
        ring
      · rw [if_neg htr]
        have : ((r.getD 0 : ℤ) : ℚ) * (w.getD 0) = 0 ∨ True := Or.inr trivial
        rcases r with - | rv
        · simp
        · simp only [truthyZ, decide_eq_true_eq] at htr
          push_neg at htr
          rw [htr]
          simp
    · simp only [if_neg htw]
      rw [except_bind_ok]
      rw [ih ht]
      congr 1
      rw [hspec, hweq]
      simp only [Option.getD_some]
      rcases w with - | wv
      · simp
      · simp only [truthyQ, decide_eq_true_eq] at htw
        push_neg at htw
        rw [htw]
        simp

/-- C8 (amended): `calc_volume` (src/app.py) satisfies the full contract — it
equals the spec's sum of reps×weight with a missing or null field contributing
zero, never raises, and never drops a set.  `calculate_exercise_volume`
(src/hevy.py) satisfies it only when every set carries both keys (possibly
null): a *missing* key raises KeyError (see the counterexample), while a
*null* field contributes zero as claimed. -/
theorem c8_volume_calculators (l : List RawSet) :
    calc_volume l = specVolume l ∧
    ((∀ s ∈ l, s.weight_kg ≠ none ∧ s.reps ≠ none) →
      calculate_exercise_volume l = Except.ok (specVolume l)) := by
  refine ⟨calc_volume_eq_specVolume l, fun h => ?_⟩
  unfold calculate_exercise_volume
  rw [calculate_exercise_volume_go h 0]
  rw [zero_add]

/-- C8 counterexample: a set whose `weight_kg` key is missing makes
`calculate_exercise_volume` raise (return an error) instead of contributing
zero, refuting "never raises" for the hevy.py calculator. -/
theorem c8_counterexample :
    calculate_exercise_volume [⟨none, some (some 5)⟩] =
      Except.error "KeyError: weight_kg" := rfl

/-- Witness for C8 at a concrete input with a null weight and a null rep. -/
theorem c8_volume_calculators_witness :
    calculate_exercise_volume
        [⟨some (some 3), some (some 5)⟩, ⟨some none, some (some 4)⟩, ⟨some (some 2), some none⟩] =
      Except.ok (specVolume
        [⟨some (some 3), some (some 5)⟩, ⟨some none, some (some 4)⟩, ⟨some (some 2), some none⟩]) :=
  (c8_volume_calculators _).2 (by decide)

/-! ## C5: rep bounds -/

/-- The set list carried by each phase record. -/
def Phase.recSets : Phase → List SetRW
  | .p0 _ b _ => b
  | .p1 _ _ _ _ f _ => f
  | .p2 _ _ _ ns _ => ns

theorem flattenSets_reps_le (cap : ℤ) (l : List SetRW) :
    ∀ s ∈ flattenSets cap l, s.1 ≤ cap ∨ s ∈ l ∧ s.1 ≤ cap := by
  intro s hs
  left
  simp only [flattenSets, List.mem_map] at hs
  obtain ⟨u, -, he⟩ := hs
  by_cases hc : cap < u.1
  · rw [if_pos hc] at he
    rw [← he]
  · rw [if_neg hc] at he
    rw [← he]
    exact le_of_not_lt hc

theorem flattenSets_le (cap : ℤ) (l : List SetRW) :
    ∀ s ∈ flattenSets cap l, s.1 ≤ cap := by
  intro s hs
  rcases flattenSets_reps_le cap l s hs with h | h
  · exact h
  · exact h.2

/-- The greedy state actually computed inside `evalCandidate`. -/
def gStateOf (base : List SetRW) (delta : ℚ) (rep_floor rep_cap : ℤ) (w_inc : ℚ) :
    GreedyState :=
  runGreedy ((bumpedSets base w_inc).map (fun s => s.2))
    (orderOf ((bumpedSets base w_inc).map (fun s => s.2)))
    ⟨base.map (fun s => floorNeed rep_floor s.1 (rep_cap - s.1)),
     base.map (fun s => (rep_cap - s.1) - floorNeed rep_floor s.1 (rep_cap - s.1)),
     (base.map (fun s =>
        ((floorNeed rep_floor s.1 (rep_cap - s.1) : ℤ) : ℚ) * (s.2 + w_inc))).sum,
     delta - addedWeightVol base w_inc -
       (base.map (fun s =>
          ((floorNeed rep_floor s.1 (rep_cap - s.1) : ℤ) : ℚ) * (s.2 + w_inc))).sum⟩

theorem evalCandidate_final_eq (base : List SetRW) (delta : ℚ) (fl cap : ℤ) (w : ℚ) :
    (evalCandidate base delta fl cap w).final_sets =
      (base.zip (gStateOf base delta fl cap w).bump_r).map
        (fun p => (p.1.1 + p.2, p.1.2 + w)) := rfl

theorem gStateOf_inv (base : List SetRW) (delta : ℚ) (fl cap : ℤ) (w : ℚ) :
    GInv base ((bumpedSets base w).map (fun s => s.2)) cap
      (base.map (fun s => floorNeed fl s.1 (cap - s.1))) (gStateOf base delta fl cap w) := by
  unfold gStateOf
  exact (evalCandidate_initial_inv base delta fl cap w).run
    (orderOf ((bumpedSets base w).map (fun s => s.2))) (by simp [bumpedSets]) _

theorem gStateOf_nonneg {base : List SetRW} {cap : ℤ} (delta : ℚ) (fl : ℤ) (w : ℚ)
    (hbase : ∀ s ∈ base, s.1 ≤ cap) :
    ∀ i, 0 ≤ (gStateOf base delta fl cap w).cap_extra.getD i 0 := by
  apply runGreedy_nonneg
  intro i
  by_cases hi : i < base.length
  · show 0 ≤ (base.map (fun s => (cap - s.1) - floorNeed fl s.1 (cap - s.1))).getD i 0
    rw [getD_map hi _ 0 (0, 0)]
    have hmem : base.getD i (0, 0) ∈ base := by
      rw [List.getD_eq_getElem _ _ hi]
      exact List.getElem_mem hi
    have hcap := hbase _ hmem
    unfold floorNeed
    by_cases hlow : (base.getD i (0, 0)).1 < fl
    · rw [if_pos hlow]
      have := min_le_right (fl - (base.getD i (0, 0)).1) (cap - (base.getD i (0, 0)).1)
      omega
    · rw [if_neg hlow]
      omega
  · show 0 ≤ (base.map (fun s => (cap - s.1) - floorNeed fl s.1 (cap - s.1))).getD i 0
    rw [getD_eq_default_of_le (by simpa using Nat.le_of_not_lt hi)]

theorem evalCandidate_length (base : List SetRW) (delta : ℚ) (fl cap : ℤ) (w : ℚ) :
    (evalCandidate base delta fl cap w).final_sets.length = base.length := by
  rw [evalCandidate_final_eq, List.length_map, List.length_zip,
    (gStateOf_inv base delta fl cap w).len_b, min_self]

theorem evalCandidate_get (base : List SetRW) (delta : ℚ) (fl cap : ℤ) (w : ℚ)
    (i : ℕ) (hi : i < base.length) :
    ((evalCandidate base delta fl cap w).final_sets.get
        ⟨i, by rw [evalCandidate_length]; exact hi⟩).1 =
      (base.get ⟨i, hi⟩).1 + (gStateOf base delta fl cap w).bump_r.getD i 0 := by
  have hib : i < (gStateOf base delta fl cap w).bump_r.length := by
    rw [(gStateOf_inv base delta fl cap w).len_b]
    exact hi
  simp only [List.get_eq_getElem, evalCandidate_final_eq, List.getElem_map, List.getElem_zip]
  rw [List.getD_eq_getElem _ _ hib]

theorem evalCandidate_reps_le (base : List SetRW) (delta : ℚ) (fl cap : ℤ) (w : ℚ)
    (hbase : ∀ s ∈ base, s.1 ≤ cap) :
    ∀ s ∈ (evalCandidate base delta fl cap w).final_sets, s.1 ≤ cap := by
  have inv := gStateOf_inv base delta fl cap w
  have hnn := gStateOf_nonneg delta fl w hbase
  intro s hs
  obtain ⟨i, hlen, hget⟩ := List.mem_iff_getElem.mp hs
  have hi : i < base.length := by
    rw [evalCandidate_length] at hlen
    exact hlen
  have hv := evalCandidate_get base delta fl cap w i hi
  simp only [List.get_eq_getElem] at hv
  rw [hget] at hv
  have hce := inv.cap_eq i hi
  have hpos := hnn i
  rw [hce] at hpos
  rw [hv]
  rw [List.getD_eq_getElem _ _ hi] at hpos
  omega

theorem owr_reps_le {base : List SetRW} {delta avg mp : ℚ} {fl cap : ℤ} {nm : String}
    {res : Cand} (h : optimize_weight_and_reps base delta avg mp fl cap nm = some res)
    (hbase : ∀ s ∈ base, s.1 ≤ cap) : ∀ s ∈ res.final_sets, s.1 ≤ cap := by
  rcases owr_shape h with ⟨w, -, -, he⟩ | ⟨w, -, -, he⟩ <;> subst he
  · intro s hs
    simp only [earlyCand, bumpedSets, List.mem_map] at hs
    obtain ⟨u, hu, he⟩ := hs
    rw [← he]
    exact hbase u hu
  · exact evalCandidate_reps_le base delta fl cap w hbase

theorem phase2Plan_reps_le (cap : ℤ) (avg rem1 : ℚ) :
    ∀ s ∈ phase2Plan cap avg rem1, s.1 ≤ cap := by
  intro s hs
  unfold phase2Plan at hs
  by_cases hc : eps < rem1 - ((phase2Full cap avg rem1 : ℤ) : ℚ) * ((cap : ℚ) * avg)
  · rw [if_pos hc] at hs
    rcases List.mem_append.mp hs with hs | hs
    · rw [List.eq_of_mem_replicate hs]
    · simp only [List.mem_singleton] at hs
      rw [hs]
      exact min_le_left _ _
  · rw [if_neg hc] at hs
    rw [List.eq_of_mem_replicate hs]

/-- C5: in every executed phase's recorded set list (and in `final_sets`)
every set has reps ≤ rep_cap; and — assuming rep_floor ≤ rep_cap — every set
raised by the rep-floor step of a Phase-1 candidate ends with
reps ≥ rep_floor. -/
theorem c5_rep_bounds (data : ExerciseInput) (p mp : ℚ) (fl cap : ℤ) (hfc : fl ≤ cap) :
    (∀ ph ∈ (get_optimized_options data p mp fl cap).phases,
      ∀ s ∈ ph.recSets, s.1 ≤ cap) ∧
    (∀ s ∈ (get_optimized_options data p mp fl cap).final_sets, s.1 ≤ cap) ∧
    (∀ (base : List SetRW) (delta w : ℚ) (i : ℕ) (h : i < base.length),
      (base.get ⟨i, h⟩).1 < fl →
        fl ≤ ((evalCandidate base delta fl cap w).final_sets.get
          ⟨i, by rw [evalCandidate_length]; exact h⟩).1) := by
  have hflat : ∀ s ∈ baseSetsOf cap data, s.1 ≤ cap := flattenSets_le cap (origOf data)
  refine ⟨?_, ?_, ?_⟩
  case refine_3 =>
    intro base delta w i h hlow
    have hmono := (gStateOf_inv base delta fl cap w).mono i
    have hge := evalCandidate_get base delta fl cap w i h
    rw [hge]
    have hbr0 : (base.map
        (fun s => floorNeed fl s.1 (cap - s.1))).getD i 0 = fl - (base.get ⟨i, h⟩).1 := by
      rw [getD_map h _ 0 (0, 0)]
      rw [List.getD_eq_getElem _ _ h]
      simp only [List.get_eq_getElem] at hlow ⊢
      unfold floorNeed
      rw [if_pos hlow]
      have hle : fl - (base[i]).1 ≤ cap - (base[i]).1 := by omega
      omega
    rw [hbr0] at hmono
    omega
  case refine_1 =>
    intro ph hph s hs
    by_cases h1 : origOf data = []
    · rw [goo_empty p mp fl cap h1] at hph
      simp at hph
    by_cases h2 : rem0Of cap data p ≤ eps
    · rw [goo_phase0 p mp fl cap h1 h2] at hph
      simp only [List.mem_singleton] at hph
      subst hph
      exact hflat s hs
    cases howr : optimize_weight_and_reps (baseSetsOf cap data) (rem0Of cap data p)
        (avgWOf data) mp fl cap data.exercise with
    | none =>
      rw [goo_phase2 mp fl h1 h2 howr] at hph
      simp only [phase2Result] at hph
      rcases List.mem_append.mp hph with hph | hph
      · rcases List.mem_cons.mp hph with hph | hph
        · subst hph
          exact hflat s hs
        · simp at hph
      · rcases List.mem_cons.mp hph with hph | hph
        · subst hph
          simp only [Phase.recSets] at hs
          rcases List.mem_append.mp hs with hs | hs
          · exact hflat s hs
          · exact phase2Plan_reps_le cap (avgWOf data) (rem0Of cap data p) s hs
        · simp at hph
    | some best =>
      have hbl := owr_reps_le howr hflat
      by_cases h4 : rem0Of cap data p - best.total_added ≤ eps
      · rw [goo_phase1_ret mp fl h1 h2 howr h4] at hph
        rcases List.mem_cons.mp hph with hph | hph
        · subst hph
          exact hflat s hs
        · rcases List.mem_cons.mp hph with hph | hph
          · subst hph
            exact hbl s hs
          · simp at hph
      · rw [goo_phase1_phase2 mp fl h1 h2 howr h4] at hph
        simp only [phase2Result] at hph
        rcases List.mem_append.mp hph with hph | hph
        · rcases List.mem_cons.mp hph with hph | hph
          · subst hph
            exact hflat s hs
          · rcases List.mem_cons.mp hph with hph | hph
            · subst hph
              exact hbl s hs
            · simp at hph
        · rcases List.mem_cons.mp hph with hph | hph
          · subst hph
            simp only [Phase.recSets] at hs
            rcases List.mem_append.mp hs with hs | hs
            · exact hbl s hs
            · exact phase2Plan_reps_le cap (avgWOf data) _ s hs
          · simp at hph
  case refine_2 =>
    intro s hs
    by_cases h1 : origOf data = []
    · rw [goo_empty p mp fl cap h1] at hs
      simp at hs
    by_cases h2 : rem0Of cap data p ≤ eps
    · rw [goo_phase0 p mp fl cap h1 h2] at hs
      exact hflat s hs
    cases howr : optimize_weight_and_reps (baseSetsOf cap data) (rem0Of cap data p)
        (avgWOf data) mp fl cap data.exercise with
    | none =>
      rw [goo_phase2 mp fl h1 h2 howr] at hs
      simp only [phase2Result] at hs
      rcases List.mem_append.mp hs with hs | hs
      · exact hflat s hs
      · exact phase2Plan_reps_le cap (avgWOf data) _ s hs
    | some best =>
      have hbl := owr_reps_le howr hflat
      by_cases h4 : rem0Of cap data p - best.total_added ≤ eps
      · rw [goo_phase1_ret mp fl h1 h2 howr h4] at hs
        exact hbl s hs
      · rw [goo_phase1_phase2 mp fl h1 h2 howr h4] at hs
        simp only [phase2Result] at hs
        rcases List.mem_append.mp hs with hs | hs
        · exact hbl s hs
        · exact phase2Plan_reps_le cap (avgWOf data) _ s hs

/-- Witness for C5 at a concrete input. -/
theorem c5_rep_bounds_witness :
    (∀ ph ∈ (get_optimized_options ⟨"Bench", [(some 20, some 0)]⟩ 0 (1/10) 6 12).phases,
      ∀ s ∈ ph.recSets, s.1 ≤ 12) ∧
    (∀ s ∈ (get_optimized_options ⟨"Bench", [(some 20, some 0)]⟩ 0 (1/10) 6 12).final_sets,
      s.1 ≤ 12) ∧
    (∀ (base : List SetRW) (delta w : ℚ) (i : ℕ) (h : i < base.length),
      (base.get ⟨i, h⟩).1 < 6 →
        (6:ℤ) ≤ ((evalCandidate base delta 6 12 w).final_sets.get
          ⟨i, by rw [evalCandidate_length]; exact h⟩).1) :=
  c5_rep_bounds ⟨"Bench", [(some 20, some 0)]⟩ 0 (1/10) 6 12 (by decide)

/-! ## C2: characterization of the Phase-1 winner -/

/-- The uniform bump alone meets the deficit at increment `w` (src/hevy.py:164). -/
def coversAt (base : List SetRW) (delta w : ℚ) : Prop :=
  delta - addedWeightVol base w ≤ 0

theorem betterCand_iff {c b : Cand} (h : ¬ c.w_inc < b.w_inc) :
    betterCand c b = true ↔ c.overshoot < b.overshoot - eps := by
  unfold betterCand
  simp [h]

theorem evalCandidate_w_inc (base : List SetRW) (delta : ℚ) (fl cap : ℤ) (w : ℚ) :
    (evalCandidate base delta fl cap w).w_inc = w := rfl

theorem cand_ne_of_w_inc {x y : Cand} (h : x.w_inc ≠ y.w_inc) : x ≠ y :=
  fun he => h (by rw [he])

theorem weightCandidates_pairwise (avg mp : ℚ) (nm : String) :
    (weightCandidates avg mp nm).Pairwise (· < ·) := by
  unfold weightCandidates
  split
  · simp
  · refine List.Pairwise.map (fun i : ℕ => (5/4 : ℚ) * ((i : ℚ) + 1)) ?_
      (List.pairwise_lt_range _)
    intro a b hab
    have hq : (a : ℚ) < b := by exact_mod_cast hab
    show (5/4 : ℚ) * ((a : ℚ) + 1) < (5/4 : ℚ) * ((b : ℚ) + 1)
    linarith

theorem owrLoop_first_cover (base : List SetRW) (delta : ℚ) (fl cap : ℤ) :
    ∀ (cs : List ℚ) (best : Option Cand),
      cs.Pairwise (· < ·) →
      (∃ w ∈ cs, coversAt base delta w) →
      ∃ w ∈ cs, coversAt base delta w ∧
        owrLoop base delta fl cap cs best = some (earlyCand base delta w) ∧
        ∀ u ∈ cs, u < w → ¬ coversAt base delta u := by
  intro cs
  induction cs with
  | nil => intro best hp hex; simp at hex
  | cons w rest ih =>
    intro best hp hex
    by_cases hcov : coversAt base delta w
    · refine ⟨w, by simp, hcov, ?_, ?_⟩
      · rw [owrLoop_cons, if_pos (show delta - addedWeightVol base w ≤ 0 from hcov)]
      · intro u hu hlt
        rcases List.mem_cons.mp hu with hu | hu
        · subst hu
          exact absurd hlt (lt_irrefl u)
        · have := (List.pairwise_cons.mp hp).1 u hu
          exact absurd hlt (not_lt.mpr (le_of_lt this))
    · have hex2 : ∃ u ∈ rest, coversAt base delta u := by
        rcases hex with ⟨u, hu, hcu⟩
        rcases List.mem_cons.mp hu with hu | hu
        · subst hu; exact absurd hcu hcov
        · exact ⟨u, hu, hcu⟩
      obtain ⟨u, hu, hcu, heq, hmin⟩ := ih _ (List.pairwise_cons.mp hp).2 hex2
      refine ⟨u, by simp [hu], hcu, ?_, ?_⟩
      · rw [owrLoop_cons, if_neg (show ¬ delta - addedWeightVol base w ≤ 0 from hcov)]
        exact heq
      · intro v hv hlt
        rcases List.mem_cons.mp hv with hv | hv
        · subst hv; exact hcov
        · exact hmin v hv hlt

/-- Full characterization of the best-candidate fold of the loop when no
increment's uniform bump covers the deficit: the result is an accepted
candidate (or the initial best), its overshoot is within epsilon of minimal
among all accepted candidates, and it strictly improves on every accepted
candidate at a smaller increment. -/
theorem owrFold_char (base : List SetRW) (delta : ℚ) (fl cap : ℤ) :
    ∀ (cs : List ℚ) (best0 : Option Cand) (res : Cand),
      (∀ w ∈ cs, ¬ coversAt base delta w) →
      cs.Pairwise (· < ·) →
      (∀ b, best0 = some b → ∀ w ∈ cs, b.w_inc < w) →
      owrLoop base delta fl cap cs best0 = some res →
      ((best0 = some res ∨
          ∃ w ∈ cs, acceptedB (evalCandidate base delta fl cap w) = true ∧
            res = evalCandidate base delta fl cap w) ∧
        (∀ w ∈ cs, acceptedB (evalCandidate base delta fl cap w) = true →
          res.overshoot ≤ (evalCandidate base delta fl cap w).overshoot + eps) ∧
        (∀ b, best0 = some b →
          res.overshoot ≤ b.overshoot ∧ (res ≠ b → res.overshoot < b.overshoot - eps)) ∧
        (∀ w ∈ cs, res = evalCandidate base delta fl cap w →
          ∀ u ∈ cs, acceptedB (evalCandidate base delta fl cap u) = true → u < w →
            res.overshoot < (evalCandidate base delta fl cap u).overshoot)) := by
  intro cs
  induction cs with
  | nil =>
    intro best0 res hnc hp hbd h
    refine ⟨Or.inl h, by simp, ?_, by simp⟩
    intro b hb
    have h2 : (some b : Option Cand) = some res := by rw [← hb]; exact h
    have hrb : b = res := Option.some_inj.mp h2
    subst hrb
    exact ⟨le_refl _, fun hne => absurd rfl hne⟩
  | cons w0 rest ih =>
    intro best0 res hnc hp hbd h
    have hncw : ¬ coversAt base delta w0 := hnc w0 (by simp)
    have hncr : ∀ w ∈ rest, ¬ coversAt base delta w := fun w hw => hnc w (by simp [hw])
    have hpr : rest.Pairwise (· < ·) := (List.pairwise_cons.mp hp).2
    have hw0r : ∀ w ∈ rest, w0 < w := (List.pairwise_cons.mp hp).1
    have hcov2 : ¬ delta - addedWeightVol base w0 ≤ 0 := hncw
    rw [owrLoop_cons, if_neg hcov2] at h
    set c := evalCandidate base delta fl cap w0 with hc
    have hcw : c.w_inc = w0 := by rw [hc, evalCandidate_w_inc]
    by_cases hacc : acceptedB c = true
    · rw [if_pos hacc] at h
      cases hb0 : best0 with
      | none =>
        rw [hb0] at h
        have hbd1 : ∀ x, (some c : Option Cand) = some x → ∀ w ∈ rest, x.w_inc < w := by
          intro x hx w hw
          rw [← Option.some_inj.mp hx, hcw]
          exact hw0r w hw
        obtain ⟨ih1, ih2, ih3, ih4⟩ := ih (some c) res hncr hpr hbd1 h
        have hrc := ih3 c rfl
        have hres_ne_c_of_rest : ∀ w ∈ rest, res = evalCandidate base delta fl cap w →
            res ≠ c := by
          intro w hw he
          apply cand_ne_of_w_inc
          rw [he, evalCandidate_w_inc, hcw]
          exact ne_of_gt (hw0r w hw)
        refine ⟨?_, ?_, ?_, ?_⟩
        · rcases ih1 with h1 | ⟨w, hw, haw, he⟩
          · exact Or.inr ⟨w0, by simp, hacc, (Option.some_inj.mp h1).symm⟩
          · exact Or.inr ⟨w, by simp [hw], haw, he⟩
        · intro w hw haw
          rcases List.mem_cons.mp hw with hw | hw
          · subst hw
            have he := eps_pos
            rw [← hc]
            linarith [hrc.1]
          · exact ih2 w hw haw
        · intro b hb
          exact absurd hb (by simp)
        · intro w hw he u hu hau hlt
          rcases List.mem_cons.mp hw with hw | hw
          · subst hw
            rcases List.mem_cons.mp hu with hu | hu
            · subst hu
              exact absurd hlt (lt_irrefl _)
            · exact absurd hlt (not_lt.mpr (le_of_lt (hw0r u hu)))
          · rcases List.mem_cons.mp hu with hu | hu
            · rw [hu]
              have hne := hres_ne_c_of_rest w hw he
              have he2 := eps_pos
              have hstrict := hrc.2 hne
              rw [← hc]
              linarith
            · exact ih4 w hw he u hu hau hlt
      | some b =>
        rw [hb0] at h
        have h2 : owrLoop base delta fl cap rest
            (if betterCand c b = true then some c else some b) = some res := h
        clear h
        have hbw0 : b.w_inc < w0 := hbd b hb0 w0 (by simp)
        have hbw : ¬ c.w_inc < b.w_inc := by
          rw [hcw]
          exact not_lt.mpr (le_of_lt hbw0)
        have hbne : b ≠ c := cand_ne_of_w_inc (by rw [hcw]; exact ne_of_lt hbw0)
        by_cases hbet : betterCand c b = true
        · rw [if_pos hbet] at h2
          have hcb : c.overshoot < b.overshoot - eps := (betterCand_iff hbw).mp hbet
          have hbd1 : ∀ x, (some c : Option Cand) = some x → ∀ w ∈ rest, x.w_inc < w := by
            intro x hx w hw
            rw [← Option.some_inj.mp hx, hcw]
            exact hw0r w hw
          obtain ⟨ih1, ih2, ih3, ih4⟩ := ih (some c) res hncr hpr hbd1 h2
          have hrc := ih3 c rfl
          have hres_ne_c_of_rest : ∀ w ∈ rest, res = evalCandidate base delta fl cap w →
              res ≠ c := by
            intro w hw he
            apply cand_ne_of_w_inc
            rw [he, evalCandidate_w_inc, hcw]
            exact ne_of_gt (hw0r w hw)
          refine ⟨?_, ?_, ?_, ?_⟩
          · rcases ih1 with h1 | ⟨w, hw, haw, he⟩
            · exact Or.inr ⟨w0, by simp, hacc, (Option.some_inj.mp h1).symm⟩
            · exact Or.inr ⟨w, by simp [hw], haw, he⟩
          · intro w hw haw
            rcases List.mem_cons.mp hw with hw | hw
            · subst hw
              have he := eps_pos
              rw [← hc]
              linarith [hrc.1]
            · exact ih2 w hw haw
          · intro x hx
            have hxb : b = x := Option.some_inj.mp hx
            subst hxb
            have he := eps_pos
            constructor
            · linarith [hrc.1]
            · intro hx2
              linarith [hrc.1]
          · intro w hw he u hu hau hlt
            rcases List.mem_cons.mp hw with hw | hw
            · subst hw
              rcases List.mem_cons.mp hu with hu | hu
              · subst hu
                exact absurd hlt (lt_irrefl _)
              · exact absurd hlt (not_lt.mpr (le_of_lt (hw0r u hu)))
            · rcases List.mem_cons.mp hu with hu | hu
              · rw [hu]
                have hne := hres_ne_c_of_rest w hw he
                have hstrict := hrc.2 hne
                have he2 := eps_pos
                rw [← hc]
                linarith
              · exact ih4 w hw he u hu hau hlt
        · rw [if_neg hbet] at h2
          have hcb : b.overshoot - eps ≤ c.overshoot := by
            by_contra hcon
            push_neg at hcon
            exact hbet ((betterCand_iff hbw).mpr hcon)
          have hbd1 : ∀ x, (some b : Option Cand) = some x → ∀ w ∈ rest, x.w_inc < w := by
            intro x hx w hw
            rw [← Option.some_inj.mp hx]
            exact hbd b hb0 w (by simp [hw])
          obtain ⟨ih1, ih2, ih3, ih4⟩ := ih (some b) res hncr hpr hbd1 h2
          have hrb := ih3 b rfl
          have hres_ne_c : res ≠ c := by
            rcases ih1 with h1 | ⟨w, hw, haw, he⟩
            · rw [← Option.some_inj.mp h1]
              exact hbne
            · apply cand_ne_of_w_inc
              rw [he, evalCandidate_w_inc, hcw]
              exact ne_of_gt (hw0r w hw)
          refine ⟨?_, ?_, ?_, ?_⟩
          · rcases ih1 with h1 | ⟨w, hw, haw, he⟩
            · exact Or.inl h1
            · exact Or.inr ⟨w, by simp [hw], haw, he⟩
          · intro w hw haw
            rcases List.mem_cons.mp hw with hw | hw
            · subst hw
              rw [← hc]
              linarith [hrb.1]
            · exact ih2 w hw haw
          · intro x hx
            have hxb : b = x := Option.some_inj.mp hx
            subst hxb
            exact hrb
          · intro w hw he u hu hau hlt
            rcases List.mem_cons.mp hw with hw | hw
            · subst hw
              exact absurd he hres_ne_c
            · rcases List.mem_cons.mp hu with hu | hu
              · rw [hu]
                have hne : res ≠ b := by
                  apply cand_ne_of_w_inc
                  rw [he, evalCandidate_w_inc]
                  have hlt2 := hw0r w hw
                  intro hcon
                  rw [hcon] at hlt2
                  exact absurd (lt_trans hbw0 hlt2) (lt_irrefl _)
                have hstrict := hrb.2 hne
                rw [← hc]
                linarith
              · exact ih4 w hw he u hu hau hlt
    · rw [if_neg hacc] at h
      obtain ⟨ih1, ih2, ih3, ih4⟩ := ih best0 res hncr hpr
        (fun b hb w hw => hbd b hb w (by simp [hw])) h
      have hres_ne_c : res = c → False := by
        intro hrc
        rcases ih1 with h1 | ⟨w, hw, haw, he⟩
        · rcases Option.ne_none_iff_exists'.mp (by rw [h1]; simp : best0 ≠ none) with ⟨b, hb⟩
          rw [hb] at h1
          have hrb : b = res := Option.some_inj.mp h1
          have := hbd b hb w0 (by simp)
          rw [hrb, hrc, hcw] at this
          exact absurd this (lt_irrefl _)
        · have h1 : res.w_inc = w := by rw [he, evalCandidate_w_inc]
          have h2 : res.w_inc = w0 := by rw [hrc, hcw]
          rw [h1] at h2
          exact absurd (h2 ▸ hw0r w hw) (lt_irrefl _)
      refine ⟨?_, ?_, ih3, ?_⟩
      · rcases ih1 with h1 | ⟨w, hw, haw, he⟩
        · exact Or.inl h1
        · exact Or.inr ⟨w, by simp [hw], haw, he⟩
      · intro w hw haw
        rcases List.mem_cons.mp hw with hw | hw
        · subst hw
          rw [← hc] at haw
          exact absurd haw hacc
        · exact ih2 w hw haw
      · intro w hw he u hu hau hlt
        rcases List.mem_cons.mp hw with hw | hw
        · subst hw
          exact absurd he (fun hx => hres_ne_c hx)
        · rcases List.mem_cons.mp hu with hu | hu
          · rw [hu, ← hc] at hau
            exact absurd hau hacc
          · exact ih4 w hw he u hu hau hlt

/-- C2 (amended): whenever Phase 1 produces a winner, either (a) some scanned
increment's uniform bump alone covers the deficit, and the winner is the early
return at the first such increment, with zero rep changes — even if an
earlier accepted greedy candidate had smaller overshoot; or (b) no scanned
increment covers the deficit alone, and the winner is an accepted candidate
(≥ 1 rep changed, overshoot ≥ −epsilon) whose overshoot is within epsilon of
minimal among all accepted candidates and strictly below that of every
accepted candidate at a smaller increment. -/
theorem c2_winner_selection (base : List SetRW) (delta avg mp : ℚ) (fl cap : ℤ)
    (nm : String) (res : Cand)
    (h : optimize_weight_and_reps base delta avg mp fl cap nm = some res) :
    (∃ w ∈ weightCandidates avg mp nm, coversAt base delta w ∧
       res = earlyCand base delta w ∧ res.bump_reps = List.replicate base.length 0 ∧
       ∀ u ∈ weightCandidates avg mp nm, u < w → ¬ coversAt base delta u) ∨
    ((∀ w ∈ weightCandidates avg mp nm, ¬ coversAt base delta w) ∧
     (∃ w ∈ weightCandidates avg mp nm,
        acceptedB (evalCandidate base delta fl cap w) = true ∧
        res = evalCandidate base delta fl cap w) ∧
     (∃ b2 ∈ res.bump_reps, b2 ≠ 0) ∧ -eps ≤ res.overshoot ∧
     (∀ u ∈ weightCandidates avg mp nm,
        acceptedB (evalCandidate base delta fl cap u) = true →
        res.overshoot ≤ (evalCandidate base delta fl cap u).overshoot + eps) ∧
     (∀ u ∈ weightCandidates avg mp nm,
        acceptedB (evalCandidate base delta fl cap u) = true → u < res.w_inc →
        res.overshoot < (evalCandidate base delta fl cap u).overshoot)) := by
  by_cases hcov : ∃ w ∈ weightCandidates avg mp nm, coversAt base delta w
  · left
    obtain ⟨w, hw, hcw, heq, hmin⟩ := owrLoop_first_cover base delta fl cap _ none
      (weightCandidates_pairwise avg mp nm) hcov
    rw [optimize_weight_and_reps] at h
    rw [heq] at h
    have hre : earlyCand base delta w = res := Option.some_inj.mp h
    exact ⟨w, hw, hcw, hre.symm, by rw [← hre]; rfl, hmin⟩
  · right
    push_neg at hcov
    have hnc : ∀ w ∈ weightCandidates avg mp nm, ¬ coversAt base delta w := hcov
    rw [optimize_weight_and_reps] at h
    obtain ⟨ih1, ih2, ih3, ih4⟩ := owrFold_char base delta fl cap _ none res hnc
      (weightCandidates_pairwise avg mp nm) (by simp) h
    rcases ih1 with h1 | ⟨w, hw, haw, he⟩
    · exact absurd h1 (by simp)
    have hacc : acceptedB res = true := by rw [he]; exact haw
    refine ⟨hnc, ⟨w, hw, haw, he⟩, acceptedB_bump hacc, acceptedB_overshoot hacc, ih2, ?_⟩
    intro u hu hau hlt
    have hwi : res.w_inc = w := by rw [he, evalCandidate_w_inc]
    rw [hwi] at hlt
    exact ih4 w hw he u hu hau hlt

/-- C2 counterexample: on base sets [(10,40),(10,40),(8,40)] with deficit 52
(the spec's own §8 scenario) the Phase-1 winner is the early return at
increment 2.5 with bump_reps = [0,0,0] — it changed no rep count, refuting
"the winner is chosen among candidates that changed at least one rep count". -/
theorem c2_counterexample :
    (optimize_weight_and_reps [((10:ℤ), (40:ℚ)), (10, 40), (8, 40)] 52 40 (1/10) 6 12
        "Bench").map Cand.bump_reps = some [0, 0, 0] ∧
    (optimize_weight_and_reps [((10:ℤ), (40:ℚ)), (10, 40), (8, 40)] 52 40 (1/10) 6 12
        "Bench").map Cand.w_inc = some (5/2) := by
  have hcand : weightCandidates 40 (1/10) "Bench" = [5/4, 5/2, 15/4] := by
    rw [weightCandidates, if_neg (by decide)]
    have hfl : (⌊(40:ℚ) * (1/10) / (5/4)⌋ : ℤ) = 3 := by norm_num
    rw [hfl]
    show (List.range 3).map _ = _
    rw [show List.range 3 = [0, 1, 2] from rfl]
    norm_num [List.map_cons, List.map_nil]
  have h : optimize_weight_and_reps [((10:ℤ), (40:ℚ)), (10, 40), (8, 40)] 52 40 (1/10) 6 12
      "Bench" = some (earlyCand [((10:ℤ), (40:ℚ)), (10, 40), (8, 40)] 52 (5/2)) := by
    rw [optimize_weight_and_reps, hcand, owrLoop_cons,
      if_neg (by norm_num [addedWeightVol, List.map_cons, List.sum_cons]), owrLoop_cons,
      if_pos (by norm_num [addedWeightVol, List.map_cons, List.sum_cons])]
  rw [h]
  exact ⟨rfl, rfl⟩

/-- Witness for the amended C2 at a concrete input (the Leg Press special
case, whose single candidate 9 covers the deficit 5). -/
theorem c2_winner_selection_witness :
    (∃ w ∈ weightCandidates 100 (1/10) legPressName, coversAt [((11:ℤ), (100:ℚ))] 5 w ∧
       earlyCand [((11:ℤ), (100:ℚ))] 5 9 = earlyCand [((11:ℤ), (100:ℚ))] 5 w ∧
       (earlyCand [((11:ℤ), (100:ℚ))] 5 9).bump_reps =
         List.replicate ([((11:ℤ), (100:ℚ))] : List SetRW).length 0 ∧
       ∀ u ∈ weightCandidates 100 (1/10) legPressName, u < w →
         ¬ coversAt [((11:ℤ), (100:ℚ))] 5 u) ∨
    ((∀ w ∈ weightCandidates 100 (1/10) legPressName, ¬ coversAt [((11:ℤ), (100:ℚ))] 5 w) ∧
     (∃ w ∈ weightCandidates 100 (1/10) legPressName,
        acceptedB (evalCandidate [((11:ℤ), (100:ℚ))] 5 6 12 w) = true ∧
        earlyCand [((11:ℤ), (100:ℚ))] 5 9 = evalCandidate [((11:ℤ), (100:ℚ))] 5 6 12 w) ∧
     (∃ b2 ∈ (earlyCand [((11:ℤ), (100:ℚ))] 5 9).bump_reps, b2 ≠ 0) ∧
     -eps ≤ (earlyCand [((11:ℤ), (100:ℚ))] 5 9).overshoot ∧
     (∀ u ∈ weightCandidates 100 (1/10) legPressName,
        acceptedB (evalCandidate [((11:ℤ), (100:ℚ))] 5 6 12 u) = true →
        (earlyCand [((11:ℤ), (100:ℚ))] 5 9).overshoot ≤
          (evalCandidate [((11:ℤ), (100:ℚ))] 5 6 12 u).overshoot + eps) ∧
     (∀ u ∈ weightCandidates 100 (1/10) legPressName,
        acceptedB (evalCandidate [((11:ℤ), (100:ℚ))] 5 6 12 u) = true →
        u < (earlyCand [((11:ℤ), (100:ℚ))] 5 9).w_inc →
        (earlyCand [((11:ℤ), (100:ℚ))] 5 9).overshoot <
          (evalCandidate [((11:ℤ), (100:ℚ))] 5 6 12 u).overshoot)) :=
  c2_winner_selection [((11:ℤ), (100:ℚ))] 5 100 (1/10) 6 12 legPressName
    (earlyCand [((11:ℤ), (100:ℚ))] 5 9)
    (by
      rw [optimize_weight_and_reps, weightCandidates, if_pos rfl, owrLoop_cons,
        if_pos (by norm_num [addedWeightVol, List.map_cons, List.sum_cons])])

/-! ## C7: monotonicity in volume_perc -/

theorem goo_target (data : ExerciseInput) (p mp : ℚ) (fl cap : ℤ) (h1 : origOf data ≠ []) :
    (get_optimized_options data p mp fl cap).target_volume = targetVolOf data p := by
  by_cases h2 : rem0Of cap data p ≤ eps
  · rw [goo_phase0 p mp fl cap h1 h2]
  · cases howr : optimize_weight_and_reps (baseSetsOf cap data) (rem0Of cap data p)
        (avgWOf data) mp fl cap data.exercise with
    | none =>
      rw [goo_phase2 mp fl h1 h2 howr]
      rfl
    | some best =>
      by_cases h4 : rem0Of cap data p - best.total_added ≤ eps
      · rw [goo_phase1_ret mp fl h1 h2 howr h4]
      · rw [goo_phase1_phase2 mp fl h1 h2 howr h4]
        rfl

theorem volume_nonneg {l : List SetRW} (h : ∀ s ∈ l, 0 ≤ s.1 ∧ 0 ≤ s.2) : 0 ≤ volume l := by
  unfold volume
  apply List.sum_nonneg
  intro x hx
  simp only [List.mem_map] at hx
  obtain ⟨s, hs, he⟩ := hx
  rw [← he]
  obtain ⟨hr1, hw1⟩ := h s hs
  have hz : (0:ℚ) ≤ (s.1 : ℚ) := by exact_mod_cast hr1
  exact mul_nonneg hz hw1

/-- C7 (amended): with all else fixed and a well-formed input, increasing
`volume_perc` never decreases `target_volume`.  (The original claim also
asserted monotonicity of the volume of `final_sets`; the counterexample
refutes that part, so only the `target_volume` half survives.) -/
theorem c7_target_volume_monotone (data : ExerciseInput) (mp p1 p2 : ℚ) (fl cap : ℤ)
    (hwf : ∀ s ∈ origOf data, 0 ≤ s.1 ∧ 0 ≤ s.2) (hp1 : 0 ≤ p1) (hp12 : p1 ≤ p2) :
    (get_optimized_options data p1 mp fl cap).target_volume ≤
      (get_optimized_options data p2 mp fl cap).target_volume := by
  by_cases h1 : origOf data = []
  · rw [goo_empty p1 mp fl cap h1, goo_empty p2 mp fl cap h1]
  · rw [goo_target data p1 mp fl cap h1, goo_target data p2 mp fl cap h1]
    unfold targetVolOf
    have hv := volume_nonneg hwf
    nlinarith

/-- Witness for the amended C7 at a concrete input. -/
theorem c7_target_volume_monotone_witness :
    (get_optimized_options ⟨"Bench", [(some 1, some 2)]⟩ 0 (1/10) 6 12).target_volume ≤
      (get_optimized_options ⟨"Bench", [(some 1, some 2)]⟩ 1 (1/10) 6 12).target_volume :=
  c7_target_volume_monotone ⟨"Bench", [(some 1, some 2)]⟩ (1/10) 0 1 6 12
    (by intro s hs; simp [origOf] at hs; rw [hs]; norm_num) le_rfl zero_le_one

set_option maxHeartbeats 4000000 in
/-- C7 counterexample: for the fixed well-formed base
[(12 reps, 100 kg), (11 reps, 24.9999990909… kg)] and fractions
p1 = 10000000/147499999 ≈ 0.0678 ≤ p2 = 1265000001/16224999890 ≈ 0.078, the
final_sets volume *decreases* when volume_perc increases: at p1 the deficit
(100) is covered by the early return at increment 5 (final volume
base + 115), while at p2 the deficit (115 + 1/11000000) is closed by the
accepted greedy candidate at increment 3.75 whose total lies 1/1100000 short
of 115, accepted because its undershoot is exactly the 1e-6 tolerance. -/
theorem c7_counterexample :
    (0:ℚ) ≤ 10000000/147499999 ∧
    (10000000/147499999 : ℚ) ≤ 1265000001/16224999890 ∧
    (∀ s ∈ origOf ⟨"Bench", [(some 12, some 100), (some 11, some (27499999/1100000))]⟩,
      0 ≤ s.1 ∧ 0 ≤ s.2) ∧
    volume (get_optimized_options
        ⟨"Bench", [(some 12, some 100), (some 11, some (27499999/1100000))]⟩
        (1265000001/16224999890) (1/10) 6 12).final_sets <
      volume (get_optimized_options
        ⟨"Bench", [(some 12, some 100), (some 11, some (27499999/1100000))]⟩
        (10000000/147499999) (1/10) 6 12).final_sets := by
  refine ⟨by norm_num, by norm_num, ?_, ?_⟩
  · intro s hs
    have horig : origOf ⟨"Bench", [(some 12, some 100), (some 11, some (27499999/1100000))]⟩ =
        [((12:ℤ), (100:ℚ)), (11, 27499999/1100000)] := rfl
    rw [horig] at hs
    rcases List.mem_cons.mp hs with hs | hs
    · rw [hs]; norm_num
    · rcases List.mem_cons.mp hs with hs | hs
      · rw [hs]; norm_num
      · simp at hs
  · have hne : ([((12:ℤ), (100:ℚ)), (11, 27499999/1100000)] : List SetRW) ≠ [] := by simp
    norm_num [hne, get_optimized_options, origOf, targetVolOf, deltaOf, avgWOf, baseSetsOf,
      flattenSets, lostVolume, rem0Of, ph0Of, phase2Result, phase2Plan, phase2Full,
      optimize_weight_and_reps, weightCandidates, legPressName, owrLoop, earlyCand,
      evalCandidate, acceptedB, betterCand, bumpedSets, addedWeightVol, floorNeed,
      orderOf, insertByW, runGreedy, capSum, greedyLoop, greedyStep, findHeadroom,
      List.find?, dotWB, volume, eps, List.filterMap_cons, List.map_cons, List.map_nil,
      List.sum_cons, List.sum_nil, List.length_cons, List.length_nil, List.range_succ,
      List.range_zero, List.foldl_cons, List.foldl_nil, List.getD_cons_zero,
      List.getD_cons_succ, List.zip_cons_cons, List.set_cons_zero, List.set_cons_succ]

end VolumeJinn
